import Mathlib

/-!
Verification of the query-orchestration core of the universal-ai-enrichment
tool: the JSON response parsers and batch reconciliation of
`src/agent/agent_main.py`, the MCP client layer of `src/agent/mcp_client.py`,
and the heuristic company-response parser of
`src/agent/openai_compatible_client.py`, shallowly embedded in Lean.
-/

namespace UAI

/-- JSON values as produced and consumed by the agent's parsing layer.
Python `json` floats (fractional or exponent literals, NaN, Infinity) are
outside the model: IEEE 754 semantics are not shallow-embeddable here, and no
claim depends on them.  Strings are Lean strings, so Python's lone-surrogate
code points are likewise outside the model.  Objects are association lists in
insertion order, mirroring Python dict ordering. -/
inductive Json where
  | null : Json
  | bool (b : Bool) : Json
  | int (n : Int) : Json
  | str (s : String) : Json
  | arr (elems : List Json) : Json
  | obj (fields : List (String × Json)) : Json

mutual

/-- Boolean equality on `Json` (the derive handler does not cover this nested
inductive). -/
def jeq : Json → Json → Bool
  | .null, .null => true
  | .bool a, .bool b => a == b
  | .int a, .int b => a == b
  | .str a, .str b => a == b
  | .arr a, .arr b => jeqElems a b
  | .obj a, .obj b => jeqFields a b
  | _, _ => false

def jeqElems : List Json → List Json → Bool
  | [], [] => true
  | a :: as, b :: bs => jeq a b && jeqElems as bs
  | _, _ => false

def jeqFields : List (String × Json) → List (String × Json) → Bool
  | [], [] => true
  | (k, v) :: as, (l, w) :: bs => k == l && jeq v w && jeqFields as bs
  | _, _ => false

end

mutual

theorem jeq_refl : ∀ a : Json, jeq a a = true
  | .null => rfl
  | .bool b => by simp [jeq]
  | .int n => by simp [jeq]
  | .str s => by simp [jeq]
  | .arr l => by simpa [jeq] using jeqElems_refl l
  | .obj l => by simpa [jeq] using jeqFields_refl l

theorem jeqElems_refl : ∀ l : List Json, jeqElems l l = true
  | [] => rfl
  | a :: as => by simp [jeqElems, jeq_refl a, jeqElems_refl as]

theorem jeqFields_refl : ∀ l : List (String × Json), jeqFields l l = true
  | [] => rfl
  | (k, v) :: as => by simp [jeqFields, jeq_refl v, jeqFields_refl as]

end

mutual

theorem jeq_eq : ∀ a b : Json, jeq a b = true → a = b
  | .null, .null, _ => rfl
  | .bool a, .bool b, h => by simpa [jeq] using h
  | .int a, .int b, h => by simpa [jeq] using h
  | .str a, .str b, h => by simpa [jeq] using h
  | .arr a, .arr b, h => by
      have := jeqElems_eq a b (by simpa [jeq] using h)
      simp [this]
  | .obj a, .obj b, h => by
      have := jeqFields_eq a b (by simpa [jeq] using h)
      simp [this]
  | .null, .bool _, h => by simp [jeq] at h
  | .null, .int _, h => by simp [jeq] at h
  | .null, .str _, h => by simp [jeq] at h
  | .null, .arr _, h => by simp [jeq] at h
  | .null, .obj _, h => by simp [jeq] at h
  | .bool _, .null, h => by simp [jeq] at h
  | .bool _, .int _, h => by simp [jeq] at h
  | .bool _, .str _, h => by simp [jeq] at h
  | .bool _, .arr _, h => by simp [jeq] at h
  | .bool _, .obj _, h => by simp [jeq] at h
  | .int _, .null, h => by simp [jeq] at h
  | .int _, .bool _, h => by simp [jeq] at h
  | .int _, .str _, h => by simp [jeq] at h
  | .int _, .arr _, h => by simp [jeq] at h
  | .int _, .obj _, h => by simp [jeq] at h
  | .str _, .null, h => by simp [jeq] at h
  | .str _, .bool _, h => by simp [jeq] at h
  | .str _, .int _, h => by simp [jeq] at h
  | .str _, .arr _, h => by simp [jeq] at h
  | .str _, .obj _, h => by simp [jeq] at h
  | .arr _, .null, h => by simp [jeq] at h
  | .arr _, .bool _, h => by simp [jeq] at h
  | .arr _, .int _, h => by simp [jeq] at h
  | .arr _, .str _, h => by simp [jeq] at h
  | .arr _, .obj _, h => by simp [jeq] at h
  | .obj _, .null, h => by simp [jeq] at h
  | .obj _, .bool _, h => by simp [jeq] at h
  | .obj _, .int _, h => by simp [jeq] at h
  | .obj _, .str _, h => by simp [jeq] at h
  | .obj _, .arr _, h => by simp [jeq] at h

theorem jeqElems_eq : ∀ a b : List Json, jeqElems a b = true → a = b
  | [], [], _ => rfl
  | [], _ :: _, h => by simp [jeqElems] at h
  | _ :: _, [], h => by simp [jeqElems] at h
  | a :: as, b :: bs, h => by
      have h' : jeq a b = true ∧ jeqElems as bs = true := by
        simpa [jeqElems, Bool.and_eq_true] using h
      have h1 := jeq_eq a b h'.1
      have h2 := jeqElems_eq as bs h'.2
      simp [h1, h2]

theorem jeqFields_eq : ∀ a b : List (String × Json), jeqFields a b = true → a = b
  | [], [], _ => rfl
  | [], _ :: _, h => by simp [jeqFields] at h
  | _ :: _, [], h => by simp [jeqFields] at h
  | (k, v) :: as, (l, w) :: bs, h => by
      have h' : (k == l) = true ∧ jeq v w = true ∧ jeqFields as bs = true := by
        simpa [jeqFields, Bool.and_eq_true, and_assoc] using h
      have h1 : k = l := by simpa using h'.1
      have h2 := jeq_eq v w h'.2.1
      have h3 := jeqFields_eq as bs h'.2.2
      simp [h1, h2, h3]

end

instance : DecidableEq Json := fun a b =>
  decidable_of_iff (jeq a b = true)
    ⟨jeq_eq a b, fun h => h ▸ jeq_refl a⟩

/-! ## Character helpers shared by the serializer and the parsers -/

/-- Decimal digit to its ASCII character. -/
def digitCh (d : Nat) : Char := Char.ofNat (48 + d)

/-- Hex digit to lowercase ASCII, as Python's `json` emits in escapes. -/
def hexCh (d : Nat) : Char := if d < 10 then Char.ofNat (48 + d) else Char.ofNat (87 + d)

/-- Four-digit lowercase hex rendering of `n % 0x10000`. -/
def hex4 (n : Nat) : List Char :=
  [hexCh (n / 4096 % 16), hexCh (n / 256 % 16), hexCh (n / 16 % 16), hexCh (n % 16)]

/-- Decimal rendering of a natural number, as Python `str(n)` for `n ≥ 0`. -/
def natChars (n : Nat) : List Char :=
  if n = 0 then ['0'] else ((Nat.digits 10 n).map digitCh).reverse

/-- Decimal rendering of an integer, as Python `str(n)`. -/
def intChars (i : Int) : List Char :=
  if i < 0 then '-' :: natChars i.natAbs else natChars i.toNat

/-- The whitespace Python's `json` module skips between tokens: `' '`, `'\t'`,
`'\n'`, `'\r'` (module constant `WHITESPACE_STR`). -/
def isWsJson (c : Char) : Bool := c = ' ' || c = '\t' || c = '\n' || c = '\r'

/-- Drop leading JSON whitespace. -/
def skipWsJson : List Char → List Char
  | [] => []
  | c :: cs => if isWsJson c then skipWsJson cs else c :: cs

def isDigitCh (c : Char) : Bool := '0' ≤ c && c ≤ '9'

def digitVal (c : Char) : Nat := c.toNat - 48

/-- Hex digit value; Python's decoder accepts both cases on input. -/
def hexVal (c : Char) : Option Nat :=
  if '0' ≤ c && c ≤ '9' then some (c.toNat - 48)
  else if 'a' ≤ c && c ≤ 'f' then some (c.toNat - 87)
  else if 'A' ≤ c && c ≤ 'F' then some (c.toNat - 55)
  else none

/-! ## `json.dumps` with default arguments (`ensure_ascii=True`, no indent) -/

/-- Escape one character the way `json.encoder.py_encode_basestring_ascii`
does: the two-character escapes for `"`/`\`/control shorts, `\u00XX` for the
other control characters, literal ASCII for `0x20..0x7E`, and `\uXXXX` (a
surrogate pair above the BMP) for everything else. -/
def escChar (c : Char) : List Char :=
  if c = '"' then ['\\', '"']
  else if c = '\\' then ['\\', '\\']
  else if c = '\n' then ['\\', 'n']
  else if c = '\r' then ['\\', 'r']
  else if c = '\t' then ['\\', 't']
  else if c = '\x08' then ['\\', 'b']
  else if c = '\x0c' then ['\\', 'f']
  else if 0x20 ≤ c.toNat && c.toNat < 0x7f then [c]
  else if c.toNat < 0x10000 then '\\' :: 'u' :: hex4 c.toNat
  else
    ('\\' :: 'u' :: hex4 (0xd800 + (c.toNat - 0x10000) / 0x400)) ++
      ('\\' :: 'u' :: hex4 (0xdc00 + (c.toNat - 0x10000) % 0x400))

/-- Escape a character list and close the string literal. -/
def escList : List Char → List Char
  | [] => ['"']
  | c :: cs => escChar c ++ escList cs

/-- A serialized JSON string literal, opening quote included. -/
def dumpStr (s : String) : List Char := '"' :: escList s.data

mutual

/-- Characters of `json.dumps(j)` with default arguments: item separator
`", "`, key separator `": "`, ASCII-only escaping. -/
def dumpChars : Json → List Char
  | .null => ['n', 'u', 'l', 'l']
  | .bool b => if b then ['t', 'r', 'u', 'e'] else ['f', 'a', 'l', 's', 'e']
  | .int n => intChars n
  | .str s => dumpStr s
  | .arr es => '[' :: (dumpElems es ++ [']'])
  | .obj fs => '\x7b' :: (dumpFields fs ++ ['\x7d'])

def dumpElems : List Json → List Char
  | [] => []
  | [e] => dumpChars e
  | e :: e' :: es => dumpChars e ++ ',' :: ' ' :: dumpElems (e' :: es)

def dumpFields : List (String × Json) → List Char
  | [] => []
  | [(k, v)] => dumpStr k ++ ':' :: ' ' :: dumpChars v
  | (k, v) :: f :: fs =>
      dumpStr k ++ ':' :: ' ' :: dumpChars v ++ ',' :: ' ' :: dumpFields (f :: fs)

end

def jsonDumps (j : Json) : String := (dumpChars j).asString

/-! ## `json.loads` (strict decoder, floats unmodelled) -/

/-- The integer part of Python's `NUMBER_RE`: `0` or a nonzero digit followed
by more digits.  A leading `0` ends the number at once, exactly as the regex
`(?:0|[1-9]\d*)` does; any extra digits are left for the caller, which then
fails on the missing delimiter just as Python's decoder does. -/
def readDigits : List Char → List Char × List Char
  | [] => ([], [])
  | c :: cs =>
      if isDigitCh c then
        let (d, r) := readDigits cs
        (c :: d, r)
      else ([], c :: cs)

def digitsToNat (l : List Char) : Nat := l.foldl (fun a c => a * 10 + digitVal c) 0

def parseNumTail (cs : List Char) : Option (Nat × List Char) :=
  match cs with
  | [] => none
  | c :: rest =>
      if c = '0' then some (0, rest)
      else if isDigitCh c then
        let (d, r) := readDigits (c :: rest)
        some (digitsToNat d, r)
      else none

/-- After the integer part, `.`/`e`/`E` would start Python's float syntax,
which this model does not cover; such inputs are rejected rather than decoded.
Where Python itself errors (`"0."`, `"1e"`), the model also rejects, at this
earlier point. -/
def numEndOk : List Char → Bool
  | [] => true
  | c :: _ => !(c = '.' || c = 'e' || c = 'E')

def parseNum (cs : List Char) : Option (Json × List Char) :=
  match cs with
  | [] => none
  | c :: rest =>
      if c = '-' then
        match parseNumTail rest with
        | some (n, r) => if numEndOk r then some (.int (-(n : Int)), r) else none
        | none => none
      else
        match parseNumTail (c :: rest) with
        | some (n, r) => if numEndOk r then some (.int (n : Int), r) else none
        | none => none

/-- Recombine a UTF-16 surrogate pair read from two `\uXXXX` escapes. -/
def combineSurrogate (hi lo : Nat) : Char :=
  Char.ofNat (0x10000 + (hi - 0xd800) * 0x400 + (lo - 0xdc00))

def hex4Val (a b c d : Char) : Option Nat :=
  match hexVal a, hexVal b, hexVal c, hexVal d with
  | some x, some y, some z, some w => some (((x * 16 + y) * 16 + z) * 16 + w)
  | _, _, _, _ => none

/-- Four hex digits and the suffix after them. -/
def readHex4 : List Char → Option (Nat × List Char)
  | a :: b :: c :: d :: r =>
      match hex4Val a b c d with
      | some v => some (v, r)
      | none => none
  | _ => none

/-- Decode one `\uXXXX` escape (the `u` already consumed), recombining a
surrogate pair; a lone surrogate is not representable in a Lean `Char` and is
rejected, where Python would keep it as a code point. -/
def decodeU (r : List Char) : Option (Char × List Char) :=
  match readHex4 r with
  | none => none
  | some (v, r2) =>
      if 0xd800 ≤ v && v < 0xdc00 then
        match r2 with
        | x :: y :: r2' =>
            if x = '\\' && y = 'u' then
              match readHex4 r2' with
              | some (w, r3) =>
                  if 0xdc00 ≤ w && w < 0xe000 then some (combineSurrogate v w, r3)
                  else none
              | none => none
            else none
        | _ => none
      else if 0xdc00 ≤ v && v < 0xe000 then none
      else some (Char.ofNat v, r2)

/-- Decode one escape sequence (the backslash already consumed): the eight
named escapes and `\uXXXX`. -/
def decodeEsc : List Char → Option (Char × List Char)
  | [] => none
  | e :: r =>
      if e = '"' then some ('"', r)
      else if e = '\\' then some ('\\', r)
      else if e = '/' then some ('/', r)
      else if e = 'b' then some ('\x08', r)
      else if e = 'f' then some ('\x0c', r)
      else if e = 'n' then some ('\n', r)
      else if e = 'r' then some ('\r', r)
      else if e = 't' then some ('\t', r)
      else if e = 'u' then decodeU r
      else none

/-- Decode a JSON string body (opening quote already consumed) in strict
mode: raw control characters are rejected, escapes go through `decodeEsc`.
The fuel only serves termination; one unit covers one emitted character, so
any fuel above the input length is enough. -/
def parseStrChars : Nat → List Char → Option (List Char × List Char)
  | 0, _ => none
  | _ + 1, [] => none
  | f + 1, c :: cs =>
      if c = '"' then some ([], cs)
      else if c = '\\' then
        match decodeEsc cs with
        | some (ch, rest) => (parseStrChars f rest).map fun (l, t) => (ch :: l, t)
        | none => none
      else if c.toNat < 0x20 then none
      else (parseStrChars f cs).map fun (l, t) => (c :: l, t)

/-- Python dict item assignment: an existing key keeps its position and takes
the new value, a new key is appended.  Models the last-wins semantics of
duplicate keys in `json.loads`. -/
def insertKV : List (String × Json) → String → Json → List (String × Json)
  | [], k, v => [(k, v)]
  | (k', v') :: rest, k, v =>
      if k' = k then (k', v) :: rest else (k', v') :: insertKV rest k v

mutual

/-- One JSON value, fuel-indexed for termination; the top-level entry point
supplies more fuel than any input can consume. -/
def parseValue : Nat → List Char → Option (Json × List Char)
  | 0, _ => none
  | _ + 1, [] => none
  | f + 1, c :: cs =>
      if c = 'n' then
        match cs with
        | 'u' :: 'l' :: 'l' :: r => some (.null, r)
        | _ => none
      else if c = 't' then
        match cs with
        | 'r' :: 'u' :: 'e' :: r => some (.bool true, r)
        | _ => none
      else if c = 'f' then
        match cs with
        | 'a' :: 'l' :: 's' :: 'e' :: r => some (.bool false, r)
        | _ => none
      else if c = '"' then
        (parseStrChars (cs.length + 1) cs).map fun (l, r) => (.str l.asString, r)
      else if c = '[' then
        match skipWsJson cs with
        | [] => (parseElems f []).map fun (l, r) => (.arr l, r)
        | d :: r =>
            if d = ']' then some (.arr [], r)
            else (parseElems f (d :: r)).map fun (l, r') => (.arr l, r')
      else if c = '\x7b' then
        match skipWsJson cs with
        | [] => (parseFields f [] []).map fun (l, r) => (.obj l, r)
        | d :: r =>
            if d = '\x7d' then some (.obj [], r)
            else (parseFields f [] (d :: r)).map fun (l, r') => (.obj l, r')
      else if c = '-' || isDigitCh c then parseNum (c :: cs)
      else none

def parseElems : Nat → List Char → Option (List Json × List Char)
  | 0, _ => none
  | f + 1, cs =>
      match parseValue f cs with
      | none => none
      | some (v, r) =>
          match skipWsJson r with
          | [] => none
          | d :: r2 =>
              if d = ',' then (parseElems f (skipWsJson r2)).map fun (l, r3) => (v :: l, r3)
              else if d = ']' then some ([v], r2)
              else none

def parseFields : Nat → List (String × Json) → List Char → Option (List (String × Json) × List Char)
  | 0, _, _ => none
  | f + 1, acc, cs =>
      match cs with
      | [] => none
      | q :: cs' =>
          if q = '"' then
            match parseStrChars (cs'.length + 1) cs' with
            | none => none
            | some (k, r) =>
                match skipWsJson r with
                | [] => none
                | d :: r2 =>
                    if d = ':' then
                      match parseValue f (skipWsJson r2) with
                      | none => none
                      | some (v, r3) =>
                          match skipWsJson r3 with
                          | [] => none
                          | d2 :: r4 =>
                              if d2 = ',' then
                                parseFields f (insertKV acc k.asString v) (skipWsJson r4)
                              else if d2 = '\x7d' then some (insertKV acc k.asString v, r4)
                              else none
                    else none
          else none

end

/-! ## Fuel and well-formedness measures for the round-trip proof -/

mutual

/-- Fuel sufficient for `parseValue` to decode the serialization of a value:
one unit per `parseValue` entry plus one per array/object element step. -/
def jfuel : Json → Nat
  | .null => 1
  | .bool _ => 1
  | .int _ => 1
  | .str _ => 1
  | .arr [] => 1
  | .arr (e :: es) => elemsFuel (e :: es) + 1
  | .obj [] => 1
  | .obj (f :: fs) => fieldsFuel (f :: fs) + 1

def elemsFuel : List Json → Nat
  | [] => 0
  | [e] => jfuel e + 1
  | e :: e' :: es => max (jfuel e) (elemsFuel (e' :: es)) + 1

def fieldsFuel : List (String × Json) → Nat
  | [] => 0
  | [(_, v)] => jfuel v + 1
  | (_, v) :: f :: fs => max (jfuel v) (fieldsFuel (f :: fs)) + 1

end

mutual

/-- A value is well formed when every object in it has pairwise distinct
keys — the "mapping" shape of the spec. -/
def jsonWF : Json → Bool
  | .null => true
  | .bool _ => true
  | .int _ => true
  | .str _ => true
  | .arr es => elemsWF es
  | .obj fs => (fs.map Prod.fst).Nodup && fieldsWF fs

def elemsWF : List Json → Bool
  | [] => true
  | e :: es => jsonWF e && elemsWF es

def fieldsWF : List (String × Json) → Bool
  | [] => true
  | (_, v) :: fs => jsonWF v && fieldsWF fs

end

/-- `json.loads`: whitespace around a single value, nothing else. -/
def jsonLoads (s : String) : Option Json :=
  let cs := skipWsJson s.data
  match parseValue (cs.length + 1) cs with
  | some (v, r) => if skipWsJson r = [] then some v else none
  | none => none

/-! ## Python string helpers

`\s`, `str.strip`, `str.lower` and `repr` are modelled over their ASCII
behavior; the sources only use them to detect ASCII keywords and to trim
values, and no claim turns on non-ASCII whitespace or case folding. -/

/-- Python regex `\s` (ASCII part). -/
def isSpacePy (c : Char) : Bool :=
  c = ' ' || c = '\t' || c = '\n' || c = '\r' || c = '\x0b' || c = '\x0c'

/-- Maximal whitespace run: `(run, rest)`. -/
def wsRun : List Char → List Char × List Char
  | [] => ([], [])
  | c :: cs =>
      if isSpacePy c then
        let (w, r) := wsRun cs
        (c :: w, r)
      else ([], c :: cs)

def dropSpacePy : List Char → List Char
  | [] => []
  | c :: cs => if isSpacePy c then dropSpacePy cs else c :: cs

/-- Python `str.strip()` over the ASCII whitespace set. -/
def pyStripChars (cs : List Char) : List Char :=
  ((dropSpacePy cs.reverse).reverse : List Char) |> dropSpacePy

def pyStrip (s : String) : String := (pyStripChars s.data).asString

/-- Python `str.lower()` over ASCII. -/
def lowerStr (s : String) : String := (s.data.map Char.toLower).asString

/-- Substring containment, Python `needle in haystack`. -/
def hasSubChars (needle : List Char) : List Char → Bool
  | [] => needle = []
  | c :: cs => List.isPrefixOf needle (c :: cs) || hasSubChars needle cs

def hasSub (haystack needle : String) : Bool := hasSubChars needle.data haystack.data

/-- Consume an exact literal; `some rest` on success. -/
def dropPre : List Char → List Char → Option (List Char)
  | [], cs => some cs
  | _ :: _, [] => none
  | l :: ls, c :: cs => if l = c then dropPre ls cs else none

/-! ## Regex models

Each fixed pattern of the sources is modelled by a dedicated matching
function.  The patterns combine greedy runs over character classes with
literals in ways that admit no essential backtracking except one: a greedy
`\s*` standing before a class that itself contains whitespace.  That one case
is implemented by `backScanGen`, which tries the longest whitespace prefix
first and gives characters back one at a time, exactly the order Python's
engine explores. -/

/-- Maximal run of class characters. -/
def takeRun (ok : Char → Bool) : List Char → List Char
  | [] => []
  | c :: cs => if ok c then c :: takeRun ok cs else []

/-- Backtracking over a preceding `\s*`: `wrev` is the reversed whitespace
run still consumed by `\s*`, `suf` the suffix where the next piece would
start.  Longest consumption is attempted first. -/
def backScanGen (attempt : List Char → Option (List Char)) :
    List Char → List Char → Option (List Char)
  | [], suf => attempt suf
  | w :: wrev, suf =>
      match attempt suf with
      | some g => some g
      | none => backScanGen attempt wrev (w :: suf)

/-- `[c]+` (greedy) as the piece after `\s*`. -/
def attemptClass (ok : Char → Bool) (suf : List Char) : Option (List Char) :=
  match suf with
  | [] => none
  | c :: _ => if ok c then some (takeRun ok suf) else none

/-- `\s*([c]+)` with Python's backtracking; `cs` starts right after the
pattern's preceding literal. -/
def classValueAfter (ok : Char → Bool) (cs : List Char) : Option (List Char) :=
  let (w, rest) := wsRun cs
  backScanGen (attemptClass ok) w.reverse rest

def notNl (c : Char) : Bool := c ≠ '\n'

def isColonCh (c : Char) : Bool := c = ':' || c = '：'

/-- One attempt of `label[:：]\s*([ok]+)` anchored at the current position. -/
def tryLabelAt (label : List Char) (ok : Char → Bool) (cs : List Char) :
    Option (List Char) :=
  match dropPre label cs with
  | none => none
  | some r =>
      match r with
      | c :: r' => if isColonCh c then classValueAfter ok r' else none
      | [] => none

/-- `re.search` for `label[:：]\s*([ok]+)`: leftmost position where the whole
pattern matches wins. -/
def searchLabelClass (label : List Char) (ok : Char → Bool) :
    List Char → Option (List Char)
  | [] => none
  | c :: cs =>
      match tryLabelAt label ok (c :: cs) with
      | some g => some g
      | none => searchLabelClass label ok cs

def isAZ09 (c : Char) : Bool := ('A' ≤ c && c ≤ 'Z') || ('0' ≤ c && c ≤ '9')

def lineEndAt : List Char → Bool
  | [] => true
  | c :: _ => c = '\n'

/-- The alternation `([A-Z0-9]{15,18}|[^\n]+?)(?:\n|$)` of the credit-code
pattern, anchored after `\s*`: the first branch succeeds only when the
maximal `[A-Z0-9]` run has length 15–18 and ends the line; otherwise the lazy
second branch takes everything up to the end of the line. -/
def attemptCredit (suf : List Char) : Option (List Char) :=
  match suf with
  | [] => none
  | c :: _ =>
      let r := takeRun isAZ09 suf
      if 15 ≤ r.length && r.length ≤ 18 && lineEndAt (List.drop r.length suf) then some r
      else if c ≠ '\n' then some (takeRun notNl suf) else none

def tryCreditAt (label : List Char) (cs : List Char) : Option (List Char) :=
  match dropPre label cs with
  | none => none
  | some r =>
      match r with
      | c :: r' =>
          if isColonCh c then
            let (w, rest) := wsRun r'
            backScanGen attemptCredit w.reverse rest
          else none
      | [] => none

def searchCredit (label : List Char) : List Char → Option (List Char)
  | [] => none
  | c :: cs =>
      match tryCreditAt label (c :: cs) with
      | some g => some g
      | none => searchCredit label cs

def isDateSep1 (c : Char) : Bool := c = '-' || c = '年' || c = '/'

def isDateSep2 (c : Char) : Bool := c = '-' || c = '月' || c = '/'

/-- `[0-9]{1,2}` greedy, constrained by the character that must follow
(the next separator): two digits if the third character is the separator,
else one digit if the second is. -/
def digits12 (next : Char → Bool) : List Char → Option (List Char × List Char)
  | a :: b :: c :: r =>
      if isDigitCh a && isDigitCh b && next c then some ([a, b], c :: r)
      else if isDigitCh a && next b then some ([a], b :: c :: r)
      else none
  | a :: b :: r =>
      if isDigitCh a && next b then some ([a], b :: r) else none
  | _ => none

/-- Final `[0-9]{1,2}` greedy with nothing required after it. -/
def digitsFinal12 : List Char → Option (List Char)
  | a :: b :: _ =>
      if isDigitCh a && isDigitCh b then some [a, b]
      else if isDigitCh a then some [a] else none
  | [a] => if isDigitCh a then some [a] else none
  | [] => none

/-- `([0-9]{4}[-年/][0-9]{1,2}[-月/][0-9]{1,2})` anchored here. -/
def attemptDate : List Char → Option (List Char)
  | a :: b :: c :: d :: s1 :: rest =>
      if isDigitCh a && isDigitCh b && isDigitCh c && isDigitCh d && isDateSep1 s1 then
        match digits12 isDateSep2 rest with
        | some (m, s2 :: rest2) =>
            (digitsFinal12 rest2).map fun dd => a :: b :: c :: d :: s1 :: (m ++ s2 :: dd)
        | _ => none
      else none
  | _ => none

def tryDateAt (label : List Char) (cs : List Char) : Option (List Char) :=
  match dropPre label cs with
  | none => none
  | some r =>
      match r with
      | c :: r' =>
          if isColonCh c then
            let (w, rest) := wsRun r'
            backScanGen attemptDate w.reverse rest
          else none
      | [] => none

def searchDate (label : List Char) : List Char → Option (List Char)
  | [] => none
  | c :: cs =>
      match tryDateAt label (c :: cs) with
      | some g => some g
      | none => searchDate label cs

/-- `(-?[0-9.]+)`: an optional minus (preferred present) then a greedy run of
digits and dots. -/
def isNumDot (c : Char) : Bool := isDigitCh c || c = '.'

def attemptSignedNum : List Char → Option (List Char)
  | [] => none
  | c :: cs =>
      if c = '-' then
        match cs with
        | [] => none
        | d :: _ => if isNumDot d then some ('-' :: takeRun isNumDot cs) else none
      else if isNumDot c then some (takeRun isNumDot (c :: cs))
      else none

/-- `label[（(]亿元[)）][:：]\s*` then a value attempt, anchored here; used by
the registered-capital and revenue/profit patterns. -/
def tryParenYiAt (label : List Char) (attempt : List Char → Option (List Char))
    (cs : List Char) : Option (List Char) :=
  match dropPre label cs with
  | none => none
  | some r =>
      match r with
      | p1 :: r1 =>
          if p1 = '（' || p1 = '(' then
            match dropPre ['亿', '元'] r1 with
            | none => none
            | some r2 =>
                match r2 with
                | p2 :: r3 =>
                    if p2 = ')' || p2 = '）' then
                      match r3 with
                      | c :: r4 =>
                          if isColonCh c then
                            let (w, rest) := wsRun r4
                            backScanGen attempt w.reverse rest
                          else none
                      | [] => none
                    else none
                | [] => none
          else none
      | [] => none

def searchParenYi (label : List Char) (attempt : List Char → Option (List Char)) :
    List Char → Option (List Char)
  | [] => none
  | c :: cs =>
      match tryParenYiAt label attempt (c :: cs) with
      | some g => some g
      | none => searchParenYi label attempt cs

/-- `label[:：]\s*(是|否)` anchored here. -/
def tryYesNoAt (label : List Char) (cs : List Char) : Option Bool :=
  match dropPre label cs with
  | none => none
  | some r =>
      match r with
      | c :: r' =>
          if isColonCh c then
            match dropSpacePy r' with
            | d :: _ => if d = '是' then some true else if d = '否' then some false else none
            | [] => none
          else none
      | [] => none

def searchYesNo (label : List Char) : List Char → Option Bool
  | [] => none
  | c :: cs =>
      match tryYesNoAt label (c :: cs) with
      | some b => some b
      | none => searchYesNo label cs

/-- Existence of `(?:lit1|lit2|lit3)[:：]\s*` followed by one more required
piece, for the loose top-500 / listed fallback patterns. -/
def tryAltColonAt (lits : List (List Char)) (after : List Char → Bool)
    (cs : List Char) : Bool :=
  lits.any fun lit =>
    match dropPre lit cs with
    | none => false
    | some r =>
        match r with
        | c :: r' => isColonCh c && after (dropSpacePy r')
        | [] => false

def searchAltColon (lits : List (List Char)) (after : List Char → Bool) :
    List Char → Bool
  | [] => false
  | c :: cs => tryAltColonAt lits after (c :: cs) || searchAltColon lits after cs

/-! ## The three extraction regexes of agent_main's response parsers -/

def isBrace (c : Char) : Bool := c = '\x7b' || c = '\x7d'

/-- `(run, rest)` for a maximal class run. -/
def splitRun (ok : Char → Bool) : List Char → List Char × List Char
  | [] => ([], [])
  | c :: cs =>
      if ok c then
        let (a, r) := splitRun ok cs
        (c :: a, r)
      else ([], c :: cs)

/-- The starred group of `\{[^{}]*(?:\{[^{}]*\}[^{}]*)*\}` after the opening
brace and first non-brace run: each iteration must read `{`, non-braces, `}`,
non-braces; a nested `{` with no closing `}` fails the whole anchored match
(the pattern's backtracking has nowhere useful to go, since every earlier
stop leaves the final `\}` facing a `{`). -/
def braceLoop : Nat → List Char → List Char → Option (List Char)
  | _, acc, '\x7d' :: _ => some (acc ++ ['\x7d'])
  | 0, _, _ => none
  | fuel + 1, acc, '\x7b' :: r2 =>
      match splitRun (fun c => !isBrace c) r2 with
      | (b, '\x7d' :: r4) =>
          match splitRun (fun c => !isBrace c) r4 with
          | (c, r5) => braceLoop fuel (acc ++ '\x7b' :: (b ++ '\x7d' :: c)) r5
      | _ => none
  | _, _, _ => none

/-- The brace pattern anchored at the current position. -/
def matchBraceAt (cs : List Char) : Option (List Char) :=
  match cs with
  | '\x7b' :: rest =>
      let (a, r) := splitRun (fun c => !isBrace c) rest
      braceLoop (cs.length + 1) ('\x7b' :: a) r
  | _ => none

/-- `re.search(r'\{[^{}]*(?:\{[^{}]*\}[^{}]*)*\}', text, re.DOTALL)`: the
leftmost position admitting a match wins. -/
def searchBraceObj : List Char → Option (List Char)
  | [] => none
  | c :: cs =>
      match matchBraceAt (c :: cs) with
      | some m => some m
      | none => searchBraceObj cs

/-- Does `\s*` then a fence closer follow?  The tail of the fenced-block
pattern after the captured group. -/
def fenceCloses (cs : List Char) : Bool :=
  List.isPrefixOf ['`', '`', '`'] (dropSpacePy cs)

/-- The lazy `.*?` of the fenced-block pattern: the first closer whose suffix
satisfies `\s*` + three backticks ends the group; every earlier closing brace
is content. -/
def fenceBody (close : Char) (acc : List Char) : List Char → Option (List Char)
  | [] => none
  | c :: cs =>
      if c = close && fenceCloses cs then some (acc.reverse ++ [close])
      else fenceBody close (c :: acc) cs

/-- One anchored attempt of ```` ```(?:json)?\s*(\{.*?\})\s*``` ````.
Consuming a literal `json` when present is equivalent to the engine's
preference order, since the no-`json` branch would then have to read `{`
where `j` stands. -/
def tryFenceAt (openCh closeCh : Char) (cs : List Char) : Option (List Char) :=
  match dropPre ['`', '`', '`'] cs with
  | none => none
  | some r =>
      let r1 := match dropPre ['j', 's', 'o', 'n'] r with
        | some r' => r'
        | none => r
      match dropSpacePy r1 with
      | c :: body => if c = openCh then fenceBody closeCh [openCh] body else none
      | [] => none

def searchFence (openCh closeCh : Char) : List Char → Option (List Char)
  | [] => none
  | c :: cs =>
      match tryFenceAt openCh closeCh (c :: cs) with
      | some m => some m
      | none => searchFence openCh closeCh cs

/-- `re.search(r'\[.*\]', text, re.DOTALL)`: from the first `[` to the last
`]` anywhere after it (greedy `.*`). -/
def bracketExtract (cs : List Char) : Option (List Char) :=
  match splitRun (fun c => c ≠ '[') cs with
  | (_, '[' :: tail) =>
      match splitRun (fun c => c ≠ ']') tail.reverse with
      | (post, ']' :: _) => some ('[' :: (tail.reverse.drop post.length).reverse)
      | _ => none
  | _ => none

/-! ## The multi-company patterns of openai_compatible_client -/

/-- `【发现\s*\d+\s*家匹配公司】` anchored here. -/
def tryMarkerAt (cs : List Char) : Bool :=
  match dropPre ['【', '发', '现'] cs with
  | none => false
  | some r =>
      let r1 := dropSpacePy r
      match splitRun isDigitCh r1 with
      | ([], _) => false
      | (_ :: _, r2) => List.isPrefixOf ['家', '匹', '配', '公', '司', '】'] (dropSpacePy r2)

def hasMarker : List Char → Bool
  | [] => false
  | c :: cs => tryMarkerAt (c :: cs) || hasMarker cs

/-- Length of a `公司\d+[:：]` header match anchored here. -/
def hdrLen (cs : List Char) : Option Nat :=
  match dropPre ['公', '司'] cs with
  | none => none
  | some r =>
      match splitRun isDigitCh r with
      | ([], _) => none
      | (d, rest) =>
          match rest with
          | c :: _ => if isColonCh c then some (2 + d.length + 1) else none
          | [] => none

/-- `re.split(r'公司\d+[:：]', text)`: pieces between non-overlapping leftmost
matches, leading piece included. -/
def splitHdrsGo : Nat → List Char → List Char → List (List Char)
  | 0, accRev, rest => [accRev.reverse ++ rest]
  | _ + 1, accRev, [] => [accRev.reverse]
  | fuel + 1, accRev, c :: cs =>
      match hdrLen (c :: cs) with
      | some k => accRev.reverse :: splitHdrsGo fuel [] (List.drop k (c :: cs))
      | none => splitHdrsGo fuel (c :: accRev) cs

def splitCompanyHdrs (cs : List Char) : List (List Char) :=
  splitHdrsGo (cs.length + 1) [] cs

/-- One anchored attempt of
`([0-9]{4})年<metric>[（(]亿元[)）][:：]\s*(-?[0-9.]+)`; on success the year,
the value token and the suffix right after the match (where `finditer`
resumes). -/
def tryFinAt (metric : List Char) (cs : List Char) :
    Option (Nat × List Char × List Char) :=
  match cs with
  | a :: b :: c0 :: d :: '年' :: r1 =>
      if isDigitCh a && isDigitCh b && isDigitCh c0 && isDigitCh d then
        match dropPre metric r1 with
        | some (p1 :: r2) =>
            if p1 = '（' || p1 = '(' then
              match dropPre ['亿', '元'] r2 with
              | some (p2 :: r3) =>
                  if p2 = ')' || p2 = '）' then
                    match r3 with
                    | c1 :: r4 =>
                        if isColonCh c1 then
                          let rest := dropSpacePy r4
                          match attemptSignedNum rest with
                          | some tok =>
                              some (digitsToNat [a, b, c0, d], tok, rest.drop tok.length)
                          | none => none
                        else none
                    | [] => none
                  else none
              | _ => none
            else none
        | _ => none
      else none
  | _ => none

/-- `re.finditer` over the year-keyed metric pattern: leftmost matches, each
search resuming where the previous match ended. -/
def finIter (metric : List Char) : Nat → List Char → List (Nat × List Char)
  | 0, _ => []
  | _ + 1, [] => []
  | fuel + 1, c :: cs =>
      match tryFinAt metric (c :: cs) with
      | some (y, tok, rest) => (y, tok) :: finIter metric fuel rest
      | none => finIter metric fuel cs

/-! ## agent_main.py: `UniversalAIAgent.parse_json_response` and
`parse_json_array_response` -/

/-- The error sentinel both response parsers return on total failure;
`raw_response` carries the input text verbatim. -/
def parseErrSentinel (s : String) : Json :=
  .obj [("error", .str "无法解析AI返回内容"), ("raw_response", .str s)]

/-- Stage 3 of `parse_json_response`: the fenced-code-block extraction, then
the sentinel. -/
def fenceStage (s : String) : Json :=
  match searchFence '\x7b' '\x7d' s.data with
  | some m =>
      match jsonLoads m.asString with
      | some v => v
      | none => parseErrSentinel s
  | none => parseErrSentinel s

/-- `UniversalAIAgent.parse_json_response`: direct decode, then brace-regex
extraction, then fenced block, then the error sentinel; every decode failure
is swallowed by the bare `except` clauses. -/
def parse_json_response (s : String) : Json :=
  match jsonLoads s with
  | some v => v
  | none =>
      match searchBraceObj s.data with
      | some m =>
          match jsonLoads m.asString with
          | some v => v
          | none => fenceStage s
      | none => fenceStage s

/-- In the extraction stages of `parse_json_array_response` the source
returns `json.loads`'s result without a list check; the extracted text starts
with `[`, so a successful strict decode is necessarily an array and the
wrapping branch is unreachable there. -/
def jsonAsList : Json → List Json
  | .arr l => l
  | v => [v]

def arrErrSentinel (s : String) : List Json := [parseErrSentinel s]

def arrFenceStage (s : String) : List Json :=
  match searchFence '[' ']' s.data with
  | some m =>
      match jsonLoads m.asString with
      | some v => jsonAsList v
      | none => arrErrSentinel s
  | none => arrErrSentinel s

/-- `UniversalAIAgent.parse_json_array_response`: direct decode (a non-list
result is wrapped in a one-element list), then `\[.*\]` extraction, then the
fenced block, then a one-element sentinel list. -/
def parse_json_array_response (s : String) : List Json :=
  match jsonLoads s with
  | some (.arr l) => l
  | some v => [v]
  | none =>
      match bracketExtract s.data with
      | some m =>
          match jsonLoads m.asString with
          | some v => jsonAsList v
          | none => arrFenceStage s
      | none => arrFenceStage s

/-! ## agent_main.py: prompt generation

A record is the per-row mapping from input column name to string value.
Templates are embedded in parsed form: Python's `str.format` scans the
template for `{name}` placeholders; here a template is the corresponding
sequence of literal and placeholder parts, and rendering raises (returns
`.error name`) at the first placeholder absent from the substitution set,
which is `str.format`'s KeyError. -/

abbrev RecT := List (String × String)

inductive TPart where
  | lit (s : String)
  | hole (name : String)
deriving DecidableEq

abbrev Template := List TPart

def lookupEnv : List (String × String) → String → Option String
  | [], _ => none
  | (k, v) :: rest, n => if k = n then some v else lookupEnv rest n

def renderTemplate : Template → List (String × String) → Except String String
  | [], _ => .ok ""
  | .lit s :: rest, env =>
      match renderTemplate rest env with
      | .ok t => .ok (s ++ t)
      | .error e => .error e
  | .hole n :: rest, env =>
      match lookupEnv env n with
      | some v =>
          match renderTemplate rest env with
          | .ok t => .ok (v ++ t)
          | .error e => .error e
      | none => .error n

structure OutputColumn where
  name : String
  type : String
  description : String
deriving DecidableEq

structure Schema where
  output_columns : List OutputColumn
  prompt_template : Template
  batch_prompt_template : Template
deriving DecidableEq

/-- The `- name (type): description` block built from `output_columns`. -/
def outputFieldsDescription (schema : Schema) : String :=
  String.intercalate "\n" (schema.output_columns.map fun c =>
    "- " ++ c.name ++ " (" ++ c.type ++ "): " ++ c.description)

/-! `json.dumps(..., ensure_ascii=False, indent=2)` for the batch data
blob. -/

def escCharNA (c : Char) : List Char :=
  if c = '"' then ['\\', '"']
  else if c = '\\' then ['\\', '\\']
  else if c = '\n' then ['\\', 'n']
  else if c = '\r' then ['\\', 'r']
  else if c = '\t' then ['\\', 't']
  else if c = '\x08' then ['\\', 'b']
  else if c = '\x0c' then ['\\', 'f']
  else if c.toNat < 0x20 then '\\' :: 'u' :: hex4 c.toNat
  else [c]

def escListNA : List Char → List Char
  | [] => ['"']
  | c :: cs => escCharNA c ++ escListNA cs

def dumpStrNA (s : String) : List Char := '"' :: escListNA s.data

def indentChars (n : Nat) : List Char := List.replicate n ' '

mutual

/-- Characters of `json.dumps(j, ensure_ascii=False, indent=2)` at the given
current indent width. -/
def ppChars (ind : Nat) : Json → List Char
  | .null => ['n', 'u', 'l', 'l']
  | .bool b => if b then ['t', 'r', 'u', 'e'] else ['f', 'a', 'l', 's', 'e']
  | .int n => intChars n
  | .str s => dumpStrNA s
  | .arr [] => ['[', ']']
  | .arr (e :: es) =>
      '[' :: '\n' :: (ppElems (ind + 2) (e :: es) ++ '\n' :: (indentChars ind ++ [']']))
  | .obj [] => ['\x7b', '\x7d']
  | .obj (f :: fs) =>
      '\x7b' :: '\n' :: (ppFields (ind + 2) (f :: fs) ++ '\n' :: (indentChars ind ++ ['\x7d']))

def ppElems (ind : Nat) : List Json → List Char
  | [] => []
  | [e] => indentChars ind ++ ppChars ind e
  | e :: e' :: es =>
      indentChars ind ++ ppChars ind e ++ ',' :: '\n' :: ppElems ind (e' :: es)

def ppFields (ind : Nat) : List (String × Json) → List Char
  | [] => []
  | [(k, v)] => indentChars ind ++ (dumpStrNA k ++ ':' :: ' ' :: ppChars ind v)
  | (k, v) :: f :: fs =>
      indentChars ind ++ (dumpStrNA k ++ ':' :: ' ' :: ppChars ind v) ++
        ',' :: '\n' :: ppFields ind (f :: fs)

end

def recordJson (r : RecT) : Json := .obj (r.map fun (k, v) => (k, .str v))

def recordsJson (rs : List RecT) : Json := .arr (rs.map recordJson)

def batchDataStr (rs : List RecT) : String := (ppChars 0 (recordsJson rs)).asString

/-! `str(dict)` (Python `repr`) over string-valued records, for the
`"company" in str(input_data[0]).lower()` heuristic.  Quote choice and ASCII
escapes follow CPython; escaping of non-printable non-ASCII code points is
outside the model (the heuristic only looks for ASCII keywords). -/

def reprEsc (q : Char) : List Char → List Char
  | [] => [q]
  | c :: cs =>
      (if c = '\\' then ['\\', '\\']
       else if c = q then ['\\', q]
       else if c = '\n' then ['\\', 'n']
       else if c = '\r' then ['\\', 'r']
       else if c = '\t' then ['\\', 't']
       else if c.toNat < 0x20 || c.toNat = 0x7f then
         ['\\', 'x', hexCh (c.toNat / 16), hexCh (c.toNat % 16)]
       else [c]) ++ reprEsc q cs

def reprStrChars (s : String) : List Char :=
  let q : Char := if s.data.contains '\'' && !(s.data.contains '"') then '"' else '\''
  q :: reprEsc q s.data

def reprFields : RecT → List Char
  | [] => []
  | [(k, v)] => reprStrChars k ++ ':' :: ' ' :: reprStrChars v
  | (k, v) :: f :: fs =>
      reprStrChars k ++ ':' :: ' ' :: reprStrChars v ++ ',' :: ' ' :: reprFields (f :: fs)

def reprRecord (r : RecT) : List Char := '\x7b' :: (reprFields r ++ ['\x7d'])

def hasKey (r : RecT) (k : String) : Bool := (lookupEnv r k).isSome

/-- `item.get('公司', item.get('company', ''))`. -/
def itemGetCompany (r : RecT) : String :=
  match lookupEnv r "公司" with
  | some v => v
  | none =>
      match lookupEnv r "company" with
      | some v => v
      | none => ""

def numberedCompanies (rs : List RecT) : String :=
  String.intercalate "\n" (rs.enum.map fun (i, r) =>
    (natChars (i + 1)).asString ++ ". " ++ itemGetCompany r)

/-- The `companies_list` heuristic of batch-mode `generate_prompt`: the first
record having key `公司` (dict membership) or `company` inside its lowered
`str()` picks the numbered list; the `产品名称`/`product` and `姓名`/`name`
tests and the default all assign `batch_data_str`, so they collapse to the
else branch. -/
def companiesListStr (rs : List RecT) (bds : String) : String :=
  match rs with
  | [] => bds
  | r0 :: _ =>
      if hasKey r0 "公司" || hasSub (lowerStr (reprRecord r0).asString) "company" then
        numberedCompanies rs
      else bds

/-- The fallback prompt of the batch branch's `except KeyError` handler. -/
def fallbackPrompt (bds outDesc : String) : String :=
  "请处理以下数据：\n" ++ bds ++ "\n\n输出字段:\n" ++ outDesc

def batchEnv (schema : Schema) (rs : List RecT) : List (String × String) :=
  let bds := batchDataStr rs
  [("batch_data", bds), ("companies_list", companiesListStr rs bds),
    ("output_fields_description", outputFieldsDescription schema)]

/-- `generate_prompt(..., is_batch=True)`: template rendering over the fixed
three-placeholder substitution set, with an unresolvable placeholder (the
KeyError) degrading to `fallbackPrompt`. -/
def generate_prompt_batch (schema : Schema) (rs : List RecT) : String :=
  match renderTemplate schema.batch_prompt_template (batchEnv schema rs) with
  | .ok p => p
  | .error _ => fallbackPrompt (batchDataStr rs) (outputFieldsDescription schema)

def singleEnv (schema : Schema) (r : RecT) : List (String × String) :=
  ("input_data", String.intercalate "\n" (r.map fun (k, v) => k ++ ": " ++ v)) ::
    ("output_fields_description", outputFieldsDescription schema) :: r

/-- `generate_prompt(..., is_batch=False)`: substitution over the fixed names
plus every record field (`**input_data`); there is no `try`, so a missing
placeholder propagates as KeyError (`.error`).  A record key that collides
with the two fixed names would raise TypeError in Python before rendering;
that collision is outside the model and no claim depends on it. -/
def generate_prompt_single (schema : Schema) (r : RecT) : Except String String :=
  renderTemplate schema.prompt_template (singleEnv schema r)

/-! ## agent_main.py: `UniversalAIAgent.query_batch`

The transport is abstracted by a per-chunk oracle: for chunk `i` with its
record list, the oracle yields either the response text the chunk's
`chat` call produced (shaped to a string exactly as lines 282–287 do), or
the message of the exception the chunk's body raised (prompt rendering,
transport, or anything else inside the `try`).  A non-empty `context` only
prefixes the prompt and is absorbed by the oracle. -/

def errDict (msg : String) : Json := .obj [("error", .str msg)]

/-- Cardinality reconciliation (lines 293–298): pad a short parse with
`无返回结果` sentinels, truncate a long one. -/
def reconcileChunk (blen : Nat) (br : List Json) : List Json :=
  if br.length ≠ blen then
    if br.length < blen then br ++ List.replicate (blen - br.length) (errDict "无返回结果")
    else br.take blen
  else br

/-- What one chunk contributes to the result list. -/
def chunkOutcome (oracle : Nat → List RecT → Except String String) (i : Nat)
    (batch : List RecT) : List Json :=
  match oracle i batch with
  | .error e => List.replicate batch.length (errDict e)
  | .ok text => reconcileChunk batch.length (parse_json_array_response text)

/-- The chunk loop, `bsPred + 1` being the positive batch size. -/
def queryBatchGo (oracle : Nat → List RecT → Except String String) (bsPred : Nat)
    (i : Nat) : List RecT → List Json
  | [] => []
  | r :: rest =>
      chunkOutcome oracle i ((r :: rest).take (bsPred + 1)) ++
        queryBatchGo oracle bsPred (i + 1) ((r :: rest).drop (bsPred + 1))
termination_by rs => rs.length
decreasing_by simp; omega

/-- `UniversalAIAgent.query_batch`.  With no AI client the whole result is
error sentinels (line 265).  A zero batch size makes Python's `range` raise
before any chunk; the claims only quantify over positive sizes, and the model
returns `[]` there. -/
def query_batch (hasClient : Bool) (oracle : Nat → List RecT → Except String String)
    (rs : List RecT) (bs : Nat) : List Json :=
  if hasClient = false then List.replicate rs.length (errDict "AI客户端未初始化")
  else if bs = 0 then []
  else queryBatchGo oracle (bs - 1) 0 rs

/-- The records of chunk `j`. -/
def chunkAt (rs : List RecT) (bs j : Nat) : List RecT := (rs.drop (j * bs)).take bs

/-- The result block chunk `j` contributes, stated independently of the
loop. -/
def chunkResult (oracle : Nat → List RecT → Except String String) (bs : Nat)
    (rs : List RecT) (j : Nat) : List Json :=
  chunkOutcome oracle j (chunkAt rs bs j)

/-! ## mcp_client.py

A server's pipe I/O is external: a `ServerSt` carries the `running` flag and
what one polling read of the child's stdout yields before the timeout
(`none` = the deadline passed with no line available). -/

structure ServerSt where
  running : Bool
  responseLine : Option String

def lookupJ : List (String × Json) → String → Option Json
  | [], _ => none
  | (k, v) :: rest, n => if k = n then some v else lookupJ rest n

/-- `MCPServer._send_request`: not running (or no process) gives `None`; a
timeout with no output line gives `None`, not an exception; a line is
stripped and JSON-decoded, a decode error being caught by the function's own
`except` and yielding `None`. -/
def sendRequest (srv : ServerSt) : Option Json :=
  if srv.running = false then none
  else
    match srv.responseLine with
    | none => none
    | some l => jsonLoads (pyStrip l)

/-- The `response["result"]` access guarded by `if response and "result" in
response`: only a dict carrying the key yields a value; a falsy or non-dict
response ends as `None` (for a list or string, membership is false or the
subscript raises TypeError into the surrounding `except`). -/
def getResultField : Json → Option Json
  | .obj fs => lookupJ fs "result"
  | _ => none

/-- `MCPServer.call_tool`: the `result` field of the JSON-RPC response, or
`None` on any failure.  The tool name and arguments shape the request the
child answers; here that answer is already fixed by the server state. -/
def call_tool (srv : ServerSt) (_toolName : String) (_args : Json) : Option Json :=
  if srv.running = false then none
  else
    match sendRequest srv with
    | some resp => getResultField resp
    | none => none

structure MCPConfigServer where
  name : String
  enabled : Bool
  command : String

structure MCPConfig where
  enable_mcp : Bool
  mcp_servers : List MCPConfigServer

/-- `MCPClient._initialize_servers` with `MCPServer.start` folded in: a
server joins the registry when its entry is enabled, has a command, and the
spawn succeeds (`spawn` is the subprocess oracle, `none` = `Popen` raised). -/
def liveServers (spawn : String → Option ServerSt) (cfg : MCPConfig) :
    List (String × ServerSt) :=
  cfg.mcp_servers.filterMap fun sc =>
    if sc.enabled && sc.command ≠ "" then (spawn sc.name).map fun st => (sc.name, st)
    else none

structure MCPClientSt where
  enabled : Bool
  servers : List (String × ServerSt)

/-- `MCPClient.__init__`: servers are only started under the feature flag. -/
def mkMCPClient (spawn : String → Option ServerSt) (cfg : MCPConfig) : MCPClientSt :=
  { enabled := cfg.enable_mcp
    servers := if cfg.enable_mcp then liveServers spawn cfg else [] }

/-- `MCPClient.is_enabled`: the flag and a non-empty server registry. -/
def MCPClientSt.is_enabled (c : MCPClientSt) : Bool :=
  c.enabled && decide (0 < c.servers.length)

def lookupSrv : List (String × ServerSt) → String → Option ServerSt
  | [], _ => none
  | (k, v) :: rest, n => if k = n then some v else lookupSrv rest n

/-- The `[item.get("text", "") for item in content]` comprehension joined by
blank lines: a non-dict item or a non-string `text` raises into
`search_web`'s `except` and the whole search yields `None`. -/
def itemTexts : List Json → Option (List String)
  | [] => some []
  | .obj fs :: rest =>
      match lookupJ fs "text" with
      | some (.str t) => (itemTexts rest).map (t :: ·)
      | some _ => none
      | none => (itemTexts rest).map ("" :: ·)
  | _ :: _ => none

/-- `MCPClient.search_web`: requires the client enabled and a server
registered under `web_search`; extracts the `content` field of the
`brave_web_search` tool result (list of text items, or a plain string). -/
def search_web (c : MCPClientSt) (query : String) : Option String :=
  if c.is_enabled = false then none
  else
    match lookupSrv c.servers "web_search" with
    | none => none
    | some srv =>
        match call_tool srv "brave_web_search"
            (.obj [("query", .str query), ("count", .int 5)]) with
        | some (.obj fs) =>
            match lookupJ fs "content" with
            | some (.arr items) => (itemTexts items).map (String.intercalate "\n\n")
            | some (.str content) => some content
            | some _ => none
            | none => none
        | some _ => none
        | none => none

/-- The `公司名称[：:]\s*([^\n]+)` extraction of `enhance_prompt`. -/
def searchCompanyName (cs : List Char) : Option (List Char) :=
  searchLabelClass ['公', '司', '名', '称'] notNl cs

/-- `MCPClient.enhance_prompt`: best-effort augmentation, the original prompt
on every failure path; a search that yields an empty string is falsy under
the `if search_result:` guard and also leaves the prompt untouched; on a
non-empty result its first 1000 characters are appended as the
search-context block. -/
def mcp_enhance_prompt (c : MCPClientSt) (prompt : String) : String :=
  if c.is_enabled = false then prompt
  else if hasSub prompt "公司" || hasSub prompt "企业" then
    match searchCompanyName prompt.data with
    | some raw =>
        let company_name := (pyStripChars raw).asString
        match search_web c (company_name ++ " 公司信息 官网") with
        | some sr =>
            if sr = "" then prompt
            else
              prompt ++ "\n\n【实时搜索结果】\n" ++ (sr.data.take 1000).asString ++
                "\n\n请结合以上搜索结果回答。"
        | none => prompt
    | none => prompt
  else prompt

structure SimpleMCPClientSt where
  enabled : Bool

def SimpleMCPClientSt.is_enabled (s : SimpleMCPClientSt) : Bool := s.enabled

def simpleTipBlock : String :=
  "\n\n【提示】如果需要最新信息，请：\n1. 使用AI的联网搜索功能\n2. 优先查询官方网站\n3. 验证信息的时效性\n"

/-- `SimpleMCPClient.enhance_prompt`: whenever the flag is set it appends the
fixed search-advice block, with no server check at all. -/
def simple_enhance_prompt (s : SimpleMCPClientSt) (prompt : String) : String :=
  if s.enabled = false then prompt else prompt ++ simpleTipBlock

/-- What `create_mcp_client` hands to the engine. -/
inductive EngineClient where
  | full (c : MCPClientSt)
  | simple (s : SimpleMCPClientSt)

/-- `create_mcp_client`: the full client when it reports enabled, otherwise
the simplified fallback built from the same settings dict. -/
def create_mcp_client (spawn : String → Option ServerSt) (cfg : MCPConfig) :
    EngineClient :=
  let c := mkMCPClient spawn cfg
  if c.is_enabled then .full c else .simple ⟨cfg.enable_mcp⟩

def EngineClient.is_enabled : EngineClient → Bool
  | .full c => c.is_enabled
  | .simple s => s.is_enabled

def EngineClient.enhance_prompt : EngineClient → String → String
  | .full c, p => mcp_enhance_prompt c p
  | .simple s, p => simple_enhance_prompt s p

/-! ## openai_compatible_client.py: `_parse_ai_response`

The extracted company record.  Monetary values parsed with Python `float`
are kept as their source tokens (IEEE 754 is outside the model); a token is
stored exactly when `float()` would accept it.  The constant `ai_source`
field is omitted. -/

structure CompanyData where
  full_name : String := "N/A"
  unified_social_credit_code : String := "N/A"
  legal_representative : String := "N/A"
  registered_address : String := "N/A"
  company_type : String := "N/A"
  industry : String := "N/A"
  is_top500 : Bool := false
  is_listed : Bool := false
  reg_capital : String := "N/A"
  employee_count : String := "N/A"
  establishment_date : String := "N/A"
  revenue : List (Nat × String) := []
  net_profit : List (Nat × String) := []
deriving DecidableEq

def unknownTokens : List String := ["N/A", "无", "未知", "暂无"]

/-- The shared per-pattern assignment: strip, keep unless empty or an
unknown placeholder. -/
def fieldFrom (g : Option (List Char)) : String :=
  match g with
  | some raw =>
      let v := (pyStripChars raw).asString
      if v ≠ "" && !(unknownTokens.contains v) then v else "N/A"
  | none => "N/A"

/-- Would Python `float()` accept this `-?[0-9.]+` token? at least one digit
and at most one dot. -/
def floatOk (tok : List Char) : Bool :=
  let body := if tok.head? = some '-' then tok.tail else tok
  body.any isDigitCh && body.count '.' ≤ 1

/-- Python dict year-key assignment: replace in place or append. -/
def pairsInsert (m : List (Nat × String)) (y : Nat) (v : String) : List (Nat × String) :=
  match m with
  | [] => [(y, v)]
  | (y', v') :: rest => if y' = y then (y', v) :: rest else (y', v') :: pairsInsert rest y v

/-- The multi-company section path stores `float(match.group(2))` guarded
only by the `try`. -/
def finAssignMulti (metric : List Char) (cs : List Char) : List (Nat × String) :=
  (finIter metric (cs.length + 1) cs).foldl
    (fun m (p : Nat × List Char) =>
      if floatOk p.2 then pairsInsert m p.1 p.2.asString else m) []

/-- The single-company path strips the token and filters the unknown
placeholders before `float()` (no such token can actually be a placeholder,
but the check is the source's). -/
def finAssignSingle (metric : List Char) (cs : List Char) : List (Nat × String) :=
  (finIter metric (cs.length + 1) cs).foldl
    (fun m (p : Nat × List Char) =>
      let v := pyStripChars p.2
      if v.asString ≠ "" && !(unknownTokens.contains v.asString) && floatOk v then
        pairsInsert m p.1 v.asString
      else m) []

def fullNameLabel : List Char := ['公', '司', '全', '名']

def isDigitComma (c : Char) : Bool := isDigitCh c || c = ','

/-- `_parse_single_company_section`: the fixed-key pattern table over one
section of text.  The lazy `([^\n]+?)(?:\n|$)` groups span exactly the same
characters as a greedy `[^\n]+`, since their anchor only matches at the end
of a line. -/
def parse_company_section (cs : List Char) : CompanyData :=
  { full_name := fieldFrom (searchLabelClass fullNameLabel notNl cs)
    unified_social_credit_code :=
      fieldFrom (searchCredit ['统', '一', '社', '会', '信', '用', '代', '码'] cs)
    legal_representative := fieldFrom (searchLabelClass ['法', '定', '代', '表', '人'] notNl cs)
    registered_address := fieldFrom (searchLabelClass ['注', '册', '地', '址'] notNl cs)
    company_type := fieldFrom (searchLabelClass ['公', '司', '类', '型'] notNl cs)
    industry := fieldFrom (searchLabelClass ['所', '属', '行', '业'] notNl cs)
    is_top500 :=
      match searchYesNo ['是', '否', '为', '中', '国', '企', '业', '5', '0', '0', '强'] cs with
      | some b => b
      | none => false
    is_listed :=
      match searchYesNo ['是', '否', '上', '市'] cs with
      | some b => b
      | none => false
    reg_capital :=
      fieldFrom (searchParenYi ['注', '册', '资', '金'] (attemptClass isNumDot) cs)
    employee_count := fieldFrom (searchLabelClass ['员', '工', '人', '数'] isDigitComma cs)
    establishment_date := fieldFrom (searchDate ['成', '立', '时', '间'] cs)
    revenue := finAssignMulti ['营', '业', '额'] cs
    net_profit := finAssignMulti ['净', '利', '润'] cs }

def isQ1Class (c : Char) : Bool :=
  c = '的' || c = '详' || c = '细' || c = '信' || c = '息' || c = '：'

/-- `公司[的详细信息：]{5,}([^\n]+)` anchored here: at least five class
characters, the greedy repetition giving characters back one at a time until
a line-rest group can start. -/
def tryQ1At (cs : List Char) : Option (List Char) :=
  match dropPre ['公', '司'] cs with
  | none => none
  | some r =>
      let (run, rest) := splitRun isQ1Class r
      if run.length < 5 then none
      else backScanGen (attemptClass notNl) (run.drop 5).reverse rest

def searchQ1 : List Char → Option (List Char)
  | [] => none
  | c :: cs =>
      match tryQ1At (c :: cs) with
      | some g => some g
      | none => searchQ1 cs

def isQ2Class (c : Char) : Bool :=
  !(c = '\n' || c = '，' || c = ',' || c = '。' || c = '.')

/-- `[：:]\s*([^\n，,。.]+)`: the loose query-name fallback. -/
def searchColonClass : List Char → Option (List Char)
  | [] => none
  | c :: cs =>
      if isColonCh c then
        match classValueAfter isQ2Class cs with
        | some g => some g
        | none => searchColonClass cs
      else searchColonClass cs

/-- The `full_name` fallback of the single path: extract a name from the
original query; the bare `.strip()` can leave an empty string, which the
ensure-non-empty loop (lines 283–287 of the method) then turns back into
`N/A`. -/
def queryFallbackName (qs : List Char) : String :=
  match searchQ1 qs with
  | some g =>
      let v := (pyStripChars g).asString
      if v = "" then "N/A" else v
  | none =>
      match searchColonClass qs with
      | some g =>
          let v := (pyStripChars g).asString
          if v = "" then "N/A" else v
      | none => "N/A"

def top500Alts : List (List Char) :=
  [['中', '国', '5', '0', '0', '强'], ['企', '业', '5', '0', '0', '强'],
    ['5', '0', '0', '强', '企', '业']]

def listedAlts : List (List Char) :=
  [['已', '上', '市'], ['股', '票', '代', '码'], ['证', '券', '代', '码']]

def headIsShi : List Char → Bool
  | '是' :: _ => true
  | _ => false

def headIsAZ09 : List Char → Bool
  | c :: _ => isAZ09 c
  | _ => false

/-- The single-company path of `_parse_ai_response`: the section pattern
table, plus the loose yes-fallbacks for the two booleans, the query-derived
`full_name` fallback, and the placeholder-filtered revenue/profit maps. -/
def parse_single_response (cs qs : List Char) : CompanyData :=
  let base := parse_company_section cs
  { base with
    full_name := if base.full_name = "N/A" then queryFallbackName qs else base.full_name
    is_top500 :=
      match searchYesNo ['是', '否', '为', '中', '国', '企', '业', '5', '0', '0', '强'] cs with
      | some b => b
      | none => searchAltColon top500Alts headIsShi cs
    is_listed :=
      match searchYesNo ['是', '否', '上', '市'] cs with
      | some b => b
      | none => searchAltColon listedAlts headIsAZ09 cs
    revenue := finAssignSingle ['营', '业', '额'] cs
    net_profit := finAssignSingle ['净', '利', '润'] cs }

inductive AIParseResult where
  | single (d : CompanyData)
  | multiple (companies : List CompanyData) (count : Nat)
deriving DecidableEq

/-- The multi-company trigger (lines 211–213): the explicit marker, or a
`公司1` header and a `公司2` header both present. -/
def hasCoHdr (k : Char) (cs : List Char) : Bool :=
  hasSubChars ['公', '司', k, ':'] cs || hasSubChars ['公', '司', k, '：'] cs

def multiTrigger (cs : List Char) : Bool :=
  hasMarker cs || (hasCoHdr '1' cs && hasCoHdr '2' cs)

/-- `_parse_multiple_companies`: split on the numbered headers, drop the
preamble, skip whitespace-only sections, parse the rest, and keep those with
a usable name. -/
def parse_multiple_companies (cs : List Char) : AIParseResult :=
  let companies :=
    (match splitCompanyHdrs cs with
      | [] => []
      | _ :: tl => tl).filterMap fun sec =>
        if pyStripChars sec = [] then none
        else
          let d := parse_company_section sec
          if d.full_name ≠ "N/A" then some d else none
  .multiple companies companies.length

/-- `OpenAICompatibleClient._parse_ai_response`. -/
def parse_ai_response (text : String) (query : String) : AIParseResult :=
  if multiTrigger text.data then parse_multiple_companies text.data
  else .single (parse_single_response text.data query.data)

/-- The trigger as the spec's words state it, for comparison with the
source's `multiTrigger`: the marker, or at least two `公司<k>[:：]` section
headers. -/
def specTriggerCount : Nat → List Char → Nat
  | 0, _ => 0
  | _ + 1, [] => 0
  | fuel + 1, c :: cs =>
      match hdrLen (c :: cs) with
      | some k => 1 + specTriggerCount fuel (List.drop k (c :: cs))
      | none => specTriggerCount fuel cs

def specMultiTrigger (cs : List Char) : Bool :=
  hasMarker cs || 2 ≤ specTriggerCount (cs.length + 1) cs

/-- A suffix that cannot extend a just-parsed number: empty, or starting with
a character that is neither a digit nor `.`/`e`/`E`.  Every separator the
serializer emits after a number satisfies this. -/
def numSafe : List Char → Bool
  | [] => true
  | c :: _ => !(isDigitCh c || c = '.' || c = 'e' || c = 'E')

/-! # Proof layer

Everything below is proved about the definitions above; the claim theorems
are at the end. -/

theorem toNat_ofNat_valid (n : Nat) (h : n.isValidChar) : (Char.ofNat n).toNat = n := by
  have e : Char.ofNat n = Char.ofNatAux n h := by simp [Char.ofNat, h]
  rw [e]; rfl

theorem char_range (c : Char) :
    c.toNat < 0xd800 ∨ (0xe000 ≤ c.toNat ∧ c.toNat < 0x110000) := by
  have := c.valid
  simp [UInt32.isValidChar, Nat.isValidChar, Char.toNat] at this ⊢
  exact this

theorem digitVal_digitCh : ∀ d, d < 10 → digitVal (digitCh d) = d := by decide

theorem isDigitCh_digitCh : ∀ d, d < 10 → isDigitCh (digitCh d) = true := by decide

theorem digitCh_eq_zero : ∀ d, d < 10 → (digitCh d = '0' ↔ d = 0) := by decide

theorem hexVal_hexCh : ∀ d, d < 16 → hexVal (hexCh d) = some d := by decide

theorem hex4Val_hex4 (v : Nat) (h : v < 0x10000) :
    hex4Val (hexCh (v / 4096 % 16)) (hexCh (v / 256 % 16)) (hexCh (v / 16 % 16))
      (hexCh (v % 16)) = some v := by
  rw [hex4Val, hexVal_hexCh _ (Nat.mod_lt _ (by omega)),
    hexVal_hexCh _ (Nat.mod_lt _ (by omega)), hexVal_hexCh _ (Nat.mod_lt _ (by omega)),
    hexVal_hexCh _ (Nat.mod_lt _ (by omega))]
  simp only [Option.some.injEq]
  omega

theorem skipWsJson_cons {c : Char} (cs : List Char) (h : isWsJson c = false) :
    skipWsJson (c :: cs) = c :: cs := by
  simp [skipWsJson, h]

theorem skipWsJson_ws {c : Char} (cs : List Char) (h : isWsJson c = true) :
    skipWsJson (c :: cs) = skipWsJson cs := by
  simp [skipWsJson, h]

theorem numSafe_head {c : Char} {cs : List Char} (h : numSafe (c :: cs) = true) :
    isDigitCh c = false ∧ c ≠ '.' ∧ c ≠ 'e' ∧ c ≠ 'E' := by
  simp [numSafe] at h
  tauto

theorem readDigits_append (ds rest : List Char) (hd : ∀ c ∈ ds, isDigitCh c = true)
    (hr : numSafe rest = true) : readDigits (ds ++ rest) = (ds, rest) := by
  induction ds with
  | nil =>
      cases rest with
      | nil => simp [readDigits]
      | cons c cs =>
          have := (numSafe_head hr).1
          simp [readDigits, this]
  | cons c cs ih =>
      have hc := hd c (by simp)
      simp [readDigits, hc, ih (fun x hx => hd x (by simp [hx]))]

theorem digitsToNat_append_one (xs : List Char) (c : Char) :
    digitsToNat (xs ++ [c]) = digitsToNat xs * 10 + digitVal c := by
  simp [digitsToNat, List.foldl_append]

theorem digitsToNat_rev_map (L : List Nat) (h : ∀ d ∈ L, d < 10) :
    digitsToNat ((L.map digitCh).reverse) = Nat.ofDigits 10 L := by
  induction L with
  | nil => simp [digitsToNat]
  | cons d L ih =>
      have hd := h d (by simp)
      simp only [List.map_cons, List.reverse_cons, digitsToNat_append_one,
        ih (fun x hx => h x (by simp [hx])), digitVal_digitCh d hd, Nat.ofDigits_cons]
      ring

theorem digitsToNat_natChars (n : Nat) : digitsToNat (natChars n) = n := by
  by_cases h : n = 0
  · subst h; decide
  · rw [natChars, if_neg h,
      digitsToNat_rev_map _ (fun d hd => Nat.digits_lt_base (by norm_num) hd),
      Nat.ofDigits_digits]

theorem natChars_all_digits (n : Nat) : ∀ c ∈ natChars n, isDigitCh c = true := by
  intro c hc
  rw [natChars] at hc
  split at hc
  · simp at hc; subst hc; decide
  · simp only [List.mem_reverse, List.mem_map] at hc
    obtain ⟨d, hd, rfl⟩ := hc
    exact isDigitCh_digitCh d (Nat.digits_lt_base (by norm_num) hd)

theorem natChars_head (n : Nat) :
    ∃ c t, natChars n = c :: t ∧ isDigitCh c = true ∧ (n ≠ 0 → c ≠ '0') := by
  by_cases h : n = 0
  · subst h
    exact ⟨'0', [], by simp [natChars], by decide, by simp⟩
  · have hne : Nat.digits 10 n ≠ [] := Nat.digits_ne_nil_iff_ne_zero.mpr h
    rcases List.eq_nil_or_concat (Nat.digits 10 n) with heq | ⟨L', d, heq⟩
    · exact absurd heq hne
    · have hd : d ∈ Nat.digits 10 n := by rw [heq]; simp
      have hd10 : d < 10 := Nat.digits_lt_base (by norm_num) hd
      have hdz : d ≠ 0 := by
        have h2 := Nat.getLast_digit_ne_zero 10 h
        have h3 : (Nat.digits 10 n).getLast? = some d := by
          rw [heq]; simp
        rw [List.getLast?_eq_getLast _ hne] at h3
        injection h3 with h5
        exact h5 ▸ h2
      refine ⟨digitCh d, (L'.map digitCh).reverse, ?_, isDigitCh_digitCh d hd10, ?_⟩
      · rw [natChars, if_neg h, heq]
        simp
      · intro _
        intro hc
        exact hdz ((digitCh_eq_zero d hd10).mp hc)

theorem parseNumTail_natChars (n : Nat) (rest : List Char) (hr : numSafe rest = true) :
    parseNumTail (natChars n ++ rest) = some (n, rest) := by
  by_cases h : n = 0
  · subst h
    have h0 : natChars 0 = ['0'] := by simp [natChars]
    rw [h0]
    simp [parseNumTail]
  · obtain ⟨c, t, hct, hdig, hz⟩ := natChars_head n
    have hrd : readDigits (natChars n ++ rest) = (natChars n, rest) :=
      readDigits_append _ _ (natChars_all_digits n) hr
    rw [hct] at hrd ⊢
    have hc0 : c ≠ '0' := hz h
    simp only [List.cons_append, parseNumTail, if_neg hc0, hdig, if_true]
    rw [List.cons_append] at hrd
    rw [hrd]
    have : digitsToNat (c :: t) = n := by rw [← hct, digitsToNat_natChars]
    simp [this]

theorem numEndOk_of_numSafe {rest : List Char} (hr : numSafe rest = true) :
    numEndOk rest = true := by
  cases rest with
  | nil => rfl
  | cons c cs =>
      obtain ⟨_, h1, h2, h3⟩ := numSafe_head hr
      simp [numEndOk, h1, h2, h3]

theorem decodeU_bmp (a b c1 d : Char) (r2 : List Char) (v : Nat)
    (hv : hex4Val a b c1 d = some v)
    (hs1 : (decide (0xd800 ≤ v) && decide (v < 0xdc00)) = false)
    (hs2 : (decide (0xdc00 ≤ v) && decide (v < 0xe000)) = false) :
    decodeU (a :: b :: c1 :: d :: r2) = some (Char.ofNat v, r2) := by
  simp [decodeU, readHex4, hv, hs1, hs2]

theorem decodeU_pair (a b c1 d e1 f1 g1 h1 : Char) (r3 : List Char) (v w : Nat)
    (hv : hex4Val a b c1 d = some v) (hw : hex4Val e1 f1 g1 h1 = some w)
    (hsv : (decide (0xd800 ≤ v) && decide (v < 0xdc00)) = true)
    (hsw : (decide (0xdc00 ≤ w) && decide (w < 0xe000)) = true) :
    decodeU (a :: b :: c1 :: d :: '\\' :: 'u' :: e1 :: f1 :: g1 :: h1 :: r3) =
      some (combineSurrogate v w, r3) := by
  simp [decodeU, readHex4, hv, hw, hsv, hsw]

theorem decodeEsc_u (Y : List Char) : decodeEsc ('u' :: Y) = decodeU Y := rfl

theorem parseStrChars_quote (f : Nat) (cs : List Char) :
    parseStrChars (f + 1) ('"' :: cs) = some ([], cs) := rfl

theorem parseStrChars_bs (f : Nat) (cs : List Char) (ch : Char) (rest : List Char)
    (h : decodeEsc cs = some (ch, rest)) :
    parseStrChars (f + 1) ('\\' :: cs) =
      (parseStrChars f rest).map fun (l, t) => (ch :: l, t) := by
  simp [parseStrChars, h]

theorem parseStrChars_lit (f : Nat) (c : Char) (cs : List Char) (h1 : c ≠ '"')
    (h2 : c ≠ '\\') (h3 : ¬(c.toNat < 0x20)) :
    parseStrChars (f + 1) (c :: cs) =
      (parseStrChars f cs).map fun (l, t) => (c :: l, t) := by
  simp [parseStrChars, h1, h2, h3]

theorem parseStr_escList (l : List Char) : ∀ (f : Nat), l.length < f → ∀ rest : List Char,
    parseStrChars f (escList l ++ rest) = some (l, rest) := by
  induction l with
  | nil =>
      intro f hf rest
      obtain ⟨f, rfl⟩ : ∃ g, f = g + 1 := ⟨f - 1, by omega⟩
      simpa [escList] using parseStrChars_quote f rest
  | cons c cs ih =>
      intro f hf rest
      obtain ⟨f, rfl⟩ : ∃ g, f = g + 1 := ⟨f - 1, by omega⟩
      have hf' : cs.length < f := by
        simp only [List.length_cons] at hf
        omega
      rw [escList, List.append_assoc]
      by_cases h1 : c = '"'
      · subst h1
        rw [show escChar '"' = ['\\', '"'] from rfl]
        simp only [List.cons_append, List.nil_append]
        rw [parseStrChars_bs f ('"' :: (escList cs ++ rest)) '"' (escList cs ++ rest) rfl,
          ih f hf' rest]
        rfl
      by_cases h2 : c = '\\'
      · subst h2
        rw [show escChar '\\' = ['\\', '\\'] from rfl]
        simp only [List.cons_append, List.nil_append]
        rw [parseStrChars_bs f ('\\' :: (escList cs ++ rest)) '\\' (escList cs ++ rest) rfl,
          ih f hf' rest]
        rfl
      by_cases h3 : c = '\n'
      · subst h3
        rw [show escChar '\n' = ['\\', 'n'] from rfl]
        simp only [List.cons_append, List.nil_append]
        rw [parseStrChars_bs f ('n' :: (escList cs ++ rest)) '\n' (escList cs ++ rest) rfl,
          ih f hf' rest]
        rfl
      by_cases h4 : c = '\r'
      · subst h4
        rw [show escChar '\r' = ['\\', 'r'] from rfl]
        simp only [List.cons_append, List.nil_append]
        rw [parseStrChars_bs f ('r' :: (escList cs ++ rest)) '\r' (escList cs ++ rest) rfl,
          ih f hf' rest]
        rfl
      by_cases h5 : c = '\t'
      · subst h5
        rw [show escChar '\t' = ['\\', 't'] from rfl]
        simp only [List.cons_append, List.nil_append]
        rw [parseStrChars_bs f ('t' :: (escList cs ++ rest)) '\t' (escList cs ++ rest) rfl,
          ih f hf' rest]
        rfl
      by_cases h6 : c = '\x08'
      · subst h6
        rw [show escChar '\x08' = ['\\', 'b'] from rfl]
        simp only [List.cons_append, List.nil_append]
        rw [parseStrChars_bs f ('b' :: (escList cs ++ rest)) '\x08' (escList cs ++ rest) rfl,
          ih f hf' rest]
        rfl
      by_cases h7 : c = '\x0c'
      · subst h7
        rw [show escChar '\x0c' = ['\\', 'f'] from rfl]
        simp only [List.cons_append, List.nil_append]
        rw [parseStrChars_bs f ('f' :: (escList cs ++ rest)) '\x0c' (escList cs ++ rest) rfl,
          ih f hf' rest]
        rfl
      by_cases h8 : 0x20 ≤ c.toNat ∧ c.toNat < 0x7f
      · have e : escChar c = [c] := by
          simp [escChar, h1, h2, h3, h4, h5, h6, h7, h8.1, h8.2]
        have hq : ¬(c.toNat < 0x20) := by omega
        rw [e, List.singleton_append, parseStrChars_lit f c _ h1 h2 hq, ih f hf' rest]
        rfl
      have h8b : (decide (0x20 ≤ c.toNat) && decide (c.toNat < 0x7f)) = false := by
        simp only [Bool.and_eq_false_iff, decide_eq_false_iff_not]
        omega
      by_cases h9 : c.toNat < 0x10000
      · have e : escChar c = '\\' :: 'u' :: hex4 c.toNat := by
          simp only [escChar, if_neg h1, if_neg h2, if_neg h3, if_neg h4, if_neg h5,
            if_neg h6, if_neg h7, h8b, Bool.false_eq_true, if_false, if_pos h9]
        have hr9 := char_range c
        have hs1 : (decide (0xd800 ≤ c.toNat) && decide (c.toNat < 0xdc00)) = false := by
          simp only [Bool.and_eq_false_iff, decide_eq_false_iff_not]
          omega
        have hs2 : (decide (0xdc00 ≤ c.toNat) && decide (c.toNat < 0xe000)) = false := by
          simp only [Bool.and_eq_false_iff, decide_eq_false_iff_not]
          omega
        have hdec : decodeEsc ('u' :: (hex4 c.toNat ++ (escList cs ++ rest))) =
            some (Char.ofNat c.toNat, escList cs ++ rest) := by
          rw [decodeEsc_u, hex4]
          simp only [List.cons_append, List.nil_append]
          exact decodeU_bmp _ _ _ _ _ _ (hex4Val_hex4 c.toNat h9) hs1 hs2
        rw [e]
        simp only [List.cons_append]
        rw [parseStrChars_bs f ('u' :: (hex4 c.toNat ++ (escList cs ++ rest)))
          (Char.ofNat c.toNat) (escList cs ++ rest) hdec, ih f hf' rest]
        simp [Char.ofNat_toNat]
      · have hv := char_range c
        have htop : c.toNat < 0x110000 := by omega
        have e : escChar c =
            ('\\' :: 'u' :: hex4 (0xd800 + (c.toNat - 0x10000) / 0x400)) ++
              ('\\' :: 'u' :: hex4 (0xdc00 + (c.toNat - 0x10000) % 0x400)) := by
          simp only [escChar, if_neg h1, if_neg h2, if_neg h3, if_neg h4, if_neg h5,
            if_neg h6, if_neg h7, h8b, Bool.false_eq_true, if_false, if_neg h9]
        set hi := 0xd800 + (c.toNat - 0x10000) / 0x400 with hhi
        set lo := 0xdc00 + (c.toNat - 0x10000) % 0x400 with hlo
        have hdivlt : (c.toNat - 0x10000) / 0x400 < 0x400 := by omega
        have hmodlt : (c.toNat - 0x10000) % 0x400 < 0x400 := Nat.mod_lt _ (by omega)
        have hhi16 : hi < 0x10000 := by omega
        have hlo16 : lo < 0x10000 := by omega
        have hsHi : (decide (0xd800 ≤ hi) && decide (hi < 0xdc00)) = true := by
          simp only [Bool.and_eq_true, decide_eq_true_eq]
          omega
        have hsLo : (decide (0xdc00 ≤ lo) && decide (lo < 0xe000)) = true := by
          simp only [Bool.and_eq_true, decide_eq_true_eq]
          omega
        have hcomb : combineSurrogate hi lo = c := by
          have h10 : 0x10000 + (hi - 0xd800) * 0x400 + (lo - 0xdc00) = c.toNat := by
            rw [hhi, hlo]
            omega
          rw [combineSurrogate, h10, Char.ofNat_toNat]
        have hdec : decodeEsc ('u' :: (hex4 hi ++ ('\\' :: 'u' :: (hex4 lo ++
            (escList cs ++ rest))))) = some (c, escList cs ++ rest) := by
          rw [decodeEsc_u, hex4, hex4]
          simp only [List.cons_append, List.nil_append, List.append_assoc]
          rw [decodeU_pair _ _ _ _ _ _ _ _ _ _ _ (hex4Val_hex4 hi hhi16)
            (hex4Val_hex4 lo hlo16) hsHi hsLo, hcomb]
        rw [e]
        simp only [List.cons_append, List.append_assoc, List.nil_append]
        rw [parseStrChars_bs f ('u' :: (hex4 hi ++ ('\\' :: 'u' :: (hex4 lo ++
          (escList cs ++ rest))))) c (escList cs ++ rest) hdec, ih f hf' rest]
        rfl

theorem ne_digit_of {c x : Char} (h : isDigitCh c = true) (hx : isDigitCh x = false) :
    c ≠ x := fun e => by subst e; rw [h] at hx; cases hx

theorem isWsJson_of_digit {c : Char} (h : isDigitCh c = true) : isWsJson c = false := by
  cases hw : isWsJson c
  · rfl
  · exfalso
    simp only [isWsJson, Bool.or_eq_true, decide_eq_true_eq] at hw
    rcases hw with ((h1 | h1) | h1) | h1 <;> subst h1 <;> exact absurd h (by decide)

theorem parseNum_intChars (i : Int) (rest : List Char) (hr : numSafe rest = true) :
    parseNum (intChars i ++ rest) = some (.int i, rest) := by
  by_cases hneg : i < 0
  · have hv : -(↑i.natAbs : Int) = i := by omega
    rw [intChars, if_pos hneg, List.cons_append]
    simp only [parseNum, if_pos rfl, parseNumTail_natChars _ _ hr,
      numEndOk_of_numSafe hr, if_true, hv]
  · have hv : (↑i.toNat : Int) = i := by omega
    obtain ⟨c, t, hct, hdig, _⟩ := natChars_head i.toNat
    have hcm : c ≠ '-' := by
      intro h; subst h; simp [isDigitCh] at hdig
    have h1 : parseNumTail (natChars i.toNat ++ rest) = some (i.toNat, rest) :=
      parseNumTail_natChars _ _ hr
    rw [intChars, if_neg hneg, hct, List.cons_append]
    rw [hct, List.cons_append] at h1
    simp [parseNum, hcm, h1, numEndOk_of_numSafe hr, hv]

theorem escChar_length_pos (c : Char) : 1 ≤ (escChar c).length := by
  unfold escChar
  split_ifs <;> simp [hex4]

theorem escList_length_ge (l : List Char) : l.length + 1 ≤ (escList l).length := by
  induction l with
  | nil => simp [escList]
  | cons c cs ih =>
      have := escChar_length_pos c
      simp only [escList, List.length_append, List.length_cons]
      omega

theorem dumpChars_head (j : Json) :
    ∃ c t, dumpChars j = c :: t ∧ isWsJson c = false ∧ c ≠ ']' ∧ c ≠ '\x7d' := by
  cases j with
  | null => exact ⟨'n', _, rfl, by decide, by decide, by decide⟩
  | bool b =>
      cases b
      · exact ⟨'f', _, rfl, by decide, by decide, by decide⟩
      · exact ⟨'t', _, rfl, by decide, by decide, by decide⟩
  | int n =>
      by_cases hneg : n < 0
      · refine ⟨'-', natChars n.natAbs, ?_, by decide, by decide, by decide⟩
        show intChars n = _
        rw [intChars, if_pos hneg]
      · obtain ⟨c, t, hct, hdig, _⟩ := natChars_head n.toNat
        refine ⟨c, t, ?_, isWsJson_of_digit hdig, ne_digit_of hdig (by decide),
          ne_digit_of hdig (by decide)⟩
        show intChars n = _
        rw [intChars, if_neg hneg, hct]
  | str s => exact ⟨'"', _, rfl, by decide, by decide, by decide⟩
  | arr es =>
      cases es with
      | nil => exact ⟨'[', _, rfl, by decide, by decide, by decide⟩
      | cons e es => exact ⟨'[', _, rfl, by decide, by decide, by decide⟩
  | obj fs =>
      cases fs with
      | nil => exact ⟨'\x7b', _, rfl, by decide, by decide, by decide⟩
      | cons p ps => exact ⟨'\x7b', _, rfl, by decide, by decide, by decide⟩

theorem skipWsJson_dumpElems (e : Json) (es : List Json) (tail : List Char) :
    skipWsJson (dumpElems (e :: es) ++ tail) = dumpElems (e :: es) ++ tail := by
  obtain ⟨c, t, hct, hws, _, _⟩ := dumpChars_head e
  have hhd : ∃ u, dumpElems (e :: es) = c :: u := by
    cases es with
    | nil => exact ⟨t, by simp [dumpElems, hct]⟩
    | cons e' es' => exact ⟨t ++ ',' :: ' ' :: dumpElems (e' :: es'), by
        simp [dumpElems, hct]⟩
  obtain ⟨u, hu⟩ := hhd
  rw [hu, List.cons_append, skipWsJson_cons _ hws]

theorem insertKV_append (acc : List (String × Json)) (k : String) (v : Json)
    (h : ¬k ∈ acc.map Prod.fst) : insertKV acc k v = acc ++ [(k, v)] := by
  induction acc with
  | nil => rfl
  | cons p rest ih =>
      obtain ⟨k', v'⟩ := p
      simp only [List.map_cons, List.mem_cons] at h
      push_neg at h
      rw [insertKV, if_neg (fun e => h.1 e.symm)]
      rw [ih h.2]
      rfl

theorem jfuel_pos (j : Json) : 1 ≤ jfuel j := by
  cases j with
  | null => simp [jfuel]
  | bool b => simp [jfuel]
  | int n => simp [jfuel]
  | str s => simp [jfuel]
  | arr es => cases es <;> simp [jfuel]
  | obj fs => cases fs <;> simp [jfuel]

mutual

theorem parseValue_dump : ∀ (j : Json) (f : Nat), jfuel j ≤ f → jsonWF j = true →
    ∀ rest : List Char, numSafe rest = true →
    parseValue f (dumpChars j ++ rest) = some (j, rest)
  | .null, f, hf, _, rest, _ => by
      obtain ⟨f, rfl⟩ : ∃ g, f = g + 1 := ⟨f - 1, by have := jfuel_pos .null; omega⟩
      simp [dumpChars, parseValue]
  | .bool true, f, hf, _, rest, _ => by
      obtain ⟨f, rfl⟩ : ∃ g, f = g + 1 := ⟨f - 1, by have := jfuel_pos (.bool true); omega⟩
      simp [dumpChars, parseValue]
  | .bool false, f, hf, _, rest, _ => by
      obtain ⟨f, rfl⟩ : ∃ g, f = g + 1 := ⟨f - 1, by have := jfuel_pos (.bool false); omega⟩
      simp [dumpChars, parseValue]
  | .int n, f, hf, _, rest, hrest => by
      obtain ⟨f, rfl⟩ : ∃ g, f = g + 1 := ⟨f - 1, by have := jfuel_pos (.int n); omega⟩
      have hd : dumpChars (.int n) = intChars n := rfl
      rw [hd]
      obtain ⟨c, t, hct, hdig, _⟩ :
          ∃ c t, intChars n = c :: t ∧ (c = '-' ∨ isDigitCh c = true) ∧ True := by
        by_cases hneg : n < 0
        · exact ⟨'-', natChars n.natAbs, by rw [intChars, if_pos hneg], Or.inl rfl, trivial⟩
        · obtain ⟨c, t, hct, hdig, _⟩ := natChars_head n.toNat
          exact ⟨c, t, by rw [intChars, if_neg hneg, hct], Or.inr hdig, trivial⟩
      have hnum := parseNum_intChars n rest hrest
      rw [hct] at hnum ⊢
      have hchain : (c = 'n') = False ∧ (c = 't') = False ∧ (c = 'f') = False ∧
          (c = '"') = False ∧ (c = '[') = False ∧ (c = '\x7b') = False := by
        rcases hdig with h | h
        · subst h; refine ⟨by simp, by simp, by simp, by simp, by simp, by simp⟩
        · exact ⟨by simp [ne_digit_of (x := 'n') h (by decide)],
            by simp [ne_digit_of (x := 't') h (by decide)],
            by simp [ne_digit_of (x := 'f') h (by decide)],
            by simp [ne_digit_of (x := '"') h (by decide)],
            by simp [ne_digit_of (x := '[') h (by decide)],
            by simp [ne_digit_of (x := '\x7b') h (by decide)]⟩
      have hlast : (c = '-' || isDigitCh c) = true := by
        rcases hdig with h | h
        · subst h; rfl
        · simp [h]
      simp only [List.cons_append, parseValue, hchain.1, hchain.2.1, hchain.2.2.1,
        hchain.2.2.2.1, hchain.2.2.2.2.1, hchain.2.2.2.2.2, if_false, hlast, if_true]
      rw [← List.cons_append, hnum]
  | .str s, f, hf, _, rest, _ => by
      obtain ⟨f, rfl⟩ : ∃ g, f = g + 1 := ⟨f - 1, by have := jfuel_pos (.str s); omega⟩
      have hd : dumpChars (.str s) = '"' :: escList s.data := rfl
      rw [hd]
      simp only [List.cons_append, parseValue, if_pos rfl]
      have hlen : s.data.length < (escList s.data ++ rest).length + 1 := by
        have : s.data.length + 1 ≤ (escList s.data).length := escList_length_ge s.data
        simp only [List.length_append]
        omega
      rw [parseStr_escList s.data _ hlen rest]
      simp [show (s.data.asString : String) = s from rfl]
  | .arr [], f, hf, _, rest, _ => by
      obtain ⟨f, rfl⟩ : ∃ g, f = g + 1 := ⟨f - 1, by have := jfuel_pos (.arr []); omega⟩
      simp [dumpChars, dumpElems, parseValue, skipWsJson_cons _ (by decide : isWsJson ']' = false)]
  | .arr (e :: es), f, hf, hwf, rest, _ => by
      obtain ⟨f, rfl⟩ : ∃ g, f = g + 1 := ⟨f - 1, by have := jfuel_pos (.arr (e :: es)); omega⟩
      have hfe : elemsFuel (e :: es) ≤ f := by
        have : jfuel (.arr (e :: es)) = elemsFuel (e :: es) + 1 := rfl
        omega
      have hwfe : elemsWF (e :: es) = true := by
        have : jsonWF (.arr (e :: es)) = elemsWF (e :: es) := rfl
        rwa [this] at hwf
      have hd : dumpChars (.arr (e :: es)) = '[' :: (dumpElems (e :: es) ++ [']']) := rfl
      rw [hd]
      simp only [List.cons_append, List.append_assoc, List.cons_append, List.nil_append]
      obtain ⟨c, t, hct, hws, hne1, _⟩ := dumpChars_head e
      obtain ⟨u, hu⟩ : ∃ u, dumpElems (e :: es) ++ ']' :: rest = c :: u := by
        cases es with
        | nil => exact ⟨t ++ ']' :: rest, by simp [dumpElems, hct]⟩
        | cons e' es' => exact ⟨t ++ ',' :: ' ' :: dumpElems (e' :: es') ++ ']' :: rest, by
            simp [dumpElems, hct]⟩
      have harr := parseElems_dump (e :: es) f (by simp) hfe hwfe rest
      rw [hu] at harr
      simp only [parseValue, if_pos rfl, show ('[' = 'n') = False by simp,
        show ('[' = 't') = False by simp, show ('[' = 'f') = False by simp,
        show ('[' = '"') = False by simp, if_false, hu,
        skipWsJson_cons _ hws, if_neg (fun hh : c = ']' => hne1 hh), harr]
      rfl
  | .obj [], f, hf, _, rest, _ => by
      obtain ⟨f, rfl⟩ : ∃ g, f = g + 1 := ⟨f - 1, by have := jfuel_pos (.obj []); omega⟩
      simp [dumpChars, dumpFields, parseValue,
        skipWsJson_cons _ (by decide : isWsJson '\x7d' = false)]
  | .obj (p :: ps), f, hf, hwf, rest, _ => by
      obtain ⟨f, rfl⟩ : ∃ g, f = g + 1 := ⟨f - 1, by have := jfuel_pos (.obj (p :: ps)); omega⟩
      have hfp : fieldsFuel (p :: ps) ≤ f := by
        have : jfuel (.obj (p :: ps)) = fieldsFuel (p :: ps) + 1 := rfl
        omega
      have hwfsplit : ((p :: ps).map Prod.fst).Nodup ∧ fieldsWF (p :: ps) = true := by
        have : jsonWF (.obj (p :: ps)) =
            (decide ((p :: ps).map Prod.fst).Nodup && fieldsWF (p :: ps)) := rfl
        rw [this] at hwf
        simp only [Bool.and_eq_true, decide_eq_true_eq] at hwf
        exact hwf
      have hd : dumpChars (.obj (p :: ps)) = '\x7b' :: (dumpFields (p :: ps) ++ ['\x7d']) := rfl
      rw [hd]
      simp only [List.cons_append, List.append_assoc, List.nil_append]
      have hhd : ∃ u, dumpFields (p :: ps) ++ '\x7d' :: rest = '"' :: u := by
        obtain ⟨k, v⟩ := p
        cases ps with
        | nil => exact ⟨escList k.data ++ ':' :: ' ' :: dumpChars v ++ '\x7d' :: rest, by
            simp [dumpFields, dumpStr]⟩
        | cons p' ps' =>
            exact ⟨escList k.data ++ ':' :: ' ' :: dumpChars v ++
              ',' :: ' ' :: dumpFields (p' :: ps') ++ '\x7d' :: rest, by
                simp [dumpFields, dumpStr]⟩
      obtain ⟨u, hu⟩ := hhd
      have hobj := parseFields_dump (p :: ps) f (by simp) hfp hwfsplit.2 hwfsplit.1 []
        (by simp) rest
      rw [hu] at hobj
      simp only [parseValue, if_pos rfl, show ('\x7b' = 'n') = False by simp,
        show ('\x7b' = 't') = False by simp, show ('\x7b' = 'f') = False by simp,
        show ('\x7b' = '"') = False by simp, show ('\x7b' = '[') = False by simp, if_false,
        hu, skipWsJson_cons _ (by decide : isWsJson '"' = false),
        if_neg (by decide : ¬('"' = '\x7d')), hobj]
      simp

theorem parseElems_dump : ∀ (es : List Json) (f : Nat), es ≠ [] → elemsFuel es ≤ f →
    elemsWF es = true → ∀ rest : List Char,
    parseElems f (dumpElems es ++ ']' :: rest) = some (es, rest)
  | [], _, h, _, _, _ => absurd rfl h
  | [e], f, _, hf, hwf, rest => by
      obtain ⟨f, rfl⟩ : ∃ g, f = g + 1 := ⟨f - 1, by simp [elemsFuel] at hf; omega⟩
      have hfe : jfuel e ≤ f := by simp [elemsFuel] at hf; omega
      have hwfe : jsonWF e = true := by
        have : elemsWF [e] = (jsonWF e && elemsWF []) := rfl
        rw [this] at hwf
        simp only [Bool.and_eq_true] at hwf
        exact hwf.1
      have hval := parseValue_dump e f hfe hwfe (']' :: rest) rfl
      have hdd : dumpElems [e] = dumpChars e := rfl
      rw [hdd]
      simp only [parseElems, hval, skipWsJson_cons _ (by decide : isWsJson ']' = false),
        if_neg (by decide : ¬(']' = ','))]
      simp
  | e :: e' :: es, f, _, hf, hwf, rest => by
      obtain ⟨f, rfl⟩ : ∃ g, f = g + 1 := ⟨f - 1, by simp [elemsFuel] at hf; omega⟩
      have hfe : jfuel e ≤ f := by simp [elemsFuel] at hf; omega
      have hfes : elemsFuel (e' :: es) ≤ f := by simp [elemsFuel] at hf; omega
      have hwfe : jsonWF e = true ∧ elemsWF (e' :: es) = true := by
        have : elemsWF (e :: e' :: es) = (jsonWF e && elemsWF (e' :: es)) := rfl
        rw [this] at hwf
        simpa only [Bool.and_eq_true] using hwf
      have hdd : dumpElems (e :: e' :: es) =
          dumpChars e ++ ',' :: ' ' :: dumpElems (e' :: es) := rfl
      rw [hdd]
      simp only [List.append_assoc, List.cons_append]
      have hval := parseValue_dump e f hfe hwfe.1
        (',' :: ' ' :: (dumpElems (e' :: es) ++ ']' :: rest)) rfl
      have hih := parseElems_dump (e' :: es) f (by simp) hfes hwfe.2 rest
      simp only [parseElems, hval, skipWsJson_cons _ (by decide : isWsJson ',' = false),
        if_pos rfl]
      have hskip : skipWsJson (' ' :: (dumpElems (e' :: es) ++ ']' :: rest)) =
          dumpElems (e' :: es) ++ ']' :: rest := by
        rw [skipWsJson_ws _ (by decide : isWsJson ' ' = true), skipWsJson_dumpElems]
      rw [hskip, hih]
      rfl

theorem parseFields_dump : ∀ (ps : List (String × Json)) (f : Nat), ps ≠ [] →
    fieldsFuel ps ≤ f → fieldsWF ps = true → (ps.map Prod.fst).Nodup →
    ∀ acc : List (String × Json), (∀ p ∈ ps, ¬p.1 ∈ acc.map Prod.fst) →
    ∀ rest : List Char,
    parseFields f acc (dumpFields ps ++ '\x7d' :: rest) = some (acc ++ ps, rest)
  | [], _, h, _, _, _, _, _, _ => absurd rfl h
  | [(k, v)], f, _, hf, hwf, _, acc, hfresh, rest => by
      obtain ⟨f, rfl⟩ : ∃ g, f = g + 1 := ⟨f - 1, by simp [fieldsFuel] at hf; omega⟩
      have hfv : jfuel v ≤ f := by simp [fieldsFuel] at hf; omega
      have hwfv : jsonWF v = true := by
        have : fieldsWF [(k, v)] = (jsonWF v && fieldsWF []) := rfl
        rw [this] at hwf
        simp only [Bool.and_eq_true] at hwf
        exact hwf.1
      have hdd : dumpFields [(k, v)] = dumpStr k ++ ':' :: ' ' :: dumpChars v := rfl
      rw [hdd, dumpStr]
      simp only [List.append_assoc, List.cons_append]
      have hstr := parseStr_escList k.data
        ((escList k.data ++ (':' :: ' ' :: (dumpChars v ++ '\x7d' :: rest))).length + 1)
        (by have := escList_length_ge k.data; simp only [List.length_append]; omega)
        (':' :: ' ' :: (dumpChars v ++ '\x7d' :: rest))
      have hval := parseValue_dump v f hfv hwfv ('\x7d' :: rest) rfl
      simp only [parseFields, if_pos rfl, hstr,
        skipWsJson_cons _ (by decide : isWsJson ':' = false), if_pos rfl]
      have hskip : skipWsJson (' ' :: (dumpChars v ++ '\x7d' :: rest)) =
          dumpChars v ++ '\x7d' :: rest := by
        obtain ⟨c, t, hct, hws, _, _⟩ := dumpChars_head v
        rw [skipWsJson_ws _ (by decide : isWsJson ' ' = true)]
        rw [hct, List.cons_append, skipWsJson_cons _ hws]
      rw [hskip, hval]
      simp only [skipWsJson_cons _ (by decide : isWsJson '\x7d' = false),
        if_neg (by decide : ¬('\x7d' = ','))]
      have hins : insertKV acc k.data.asString v = acc ++ [(k, v)] := by
        rw [show (k.data.asString : String) = k from rfl]
        exact insertKV_append acc k v (hfresh (k, v) (by simp))
      rw [hins]
      simp
  | (k, v) :: p :: ps, f, _, hf, hwf, hnd, acc, hfresh, rest => by
      obtain ⟨f, rfl⟩ : ∃ g, f = g + 1 := ⟨f - 1, by simp [fieldsFuel] at hf; omega⟩
      have hfv : jfuel v ≤ f := by simp [fieldsFuel] at hf; omega
      have hfps : fieldsFuel (p :: ps) ≤ f := by simp [fieldsFuel] at hf; omega
      have hwfv : jsonWF v = true ∧ fieldsWF (p :: ps) = true := by
        have : fieldsWF ((k, v) :: p :: ps) = (jsonWF v && fieldsWF (p :: ps)) := rfl
        rw [this] at hwf
        simpa only [Bool.and_eq_true] using hwf
      have hdd : dumpFields ((k, v) :: p :: ps) =
          dumpStr k ++ ':' :: ' ' :: dumpChars v ++ ',' :: ' ' :: dumpFields (p :: ps) := rfl
      rw [hdd, dumpStr]
      simp only [List.append_assoc, List.cons_append]
      have hstr := parseStr_escList k.data
        ((escList k.data ++ (':' :: ' ' :: (dumpChars v ++ ',' :: ' ' ::
          (dumpFields (p :: ps) ++ '\x7d' :: rest)))).length + 1)
        (by have := escList_length_ge k.data; simp only [List.length_append]; omega)
        (':' :: ' ' :: (dumpChars v ++ ',' :: ' ' :: (dumpFields (p :: ps) ++ '\x7d' :: rest)))
      have hval := parseValue_dump v f hfv hwfv.1
        (',' :: ' ' :: (dumpFields (p :: ps) ++ '\x7d' :: rest)) rfl
      simp only [parseFields, if_pos rfl, hstr,
        skipWsJson_cons _ (by decide : isWsJson ':' = false), if_pos rfl]
      have hskip : skipWsJson (' ' :: (dumpChars v ++ ',' :: ' ' ::
          (dumpFields (p :: ps) ++ '\x7d' :: rest))) =
          dumpChars v ++ ',' :: ' ' :: (dumpFields (p :: ps) ++ '\x7d' :: rest) := by
        obtain ⟨c, t, hct, hws, _, _⟩ := dumpChars_head v
        rw [skipWsJson_ws _ (by decide : isWsJson ' ' = true)]
        rw [hct, List.cons_append, skipWsJson_cons _ hws]
      rw [hskip, hval]
      simp only [skipWsJson_cons _ (by decide : isWsJson ',' = false), if_pos rfl]
      have hskip2 : skipWsJson (' ' :: (dumpFields (p :: ps) ++ '\x7d' :: rest)) =
          dumpFields (p :: ps) ++ '\x7d' :: rest := by
        obtain ⟨kp, vp⟩ := p
        have hu : ∃ u, dumpFields ((kp, vp) :: ps) ++ '\x7d' :: rest = '"' :: u := by
          cases ps with
          | nil => exact ⟨escList kp.data ++ ':' :: ' ' :: dumpChars vp ++ '\x7d' :: rest, by
              simp [dumpFields, dumpStr]⟩
          | cons p' ps' =>
              exact ⟨escList kp.data ++ ':' :: ' ' :: dumpChars vp ++
                ',' :: ' ' :: dumpFields (p' :: ps') ++ '\x7d' :: rest, by
                  simp [dumpFields, dumpStr]⟩
        obtain ⟨u, hu⟩ := hu
        rw [skipWsJson_ws _ (by decide : isWsJson ' ' = true)]
        rw [hu, skipWsJson_cons _ (by decide : isWsJson '"' = false)]
      rw [hskip2]
      have hins : insertKV acc k.data.asString v = acc ++ [(k, v)] := by
        rw [show (k.data.asString : String) = k from rfl]
        exact insertKV_append acc k v (hfresh (k, v) (by simp))
      rw [hins]
      have hnd' : ((p :: ps).map Prod.fst).Nodup := by
        simp only [List.map_cons, List.nodup_cons] at hnd ⊢
        exact hnd.2
      have hkfresh : ¬k ∈ ((p :: ps).map Prod.fst) := by
        simp only [List.map_cons, List.nodup_cons] at hnd
        exact hnd.1
      have hfresh' : ∀ q ∈ (p :: ps), ¬q.1 ∈ (acc ++ [(k, v)]).map Prod.fst := by
        intro q hq
        simp only [List.map_append, List.mem_append, List.map_cons, List.map_nil,
          List.mem_singleton]
        push_neg
        refine ⟨hfresh q (by simp [hq]), ?_⟩
        intro he
        apply hkfresh
        rw [← he]
        exact List.mem_map_of_mem _ hq
      have hih := parseFields_dump (p :: ps) f (by simp) hfps hwfv.2 hnd'
        (acc ++ [(k, v)]) hfresh' rest
      rw [hih]
      simp

end

mutual

theorem jfuel_le_dump : ∀ (j : Json), jfuel j ≤ (dumpChars j).length
  | .null => by simp [jfuel, dumpChars]
  | .bool true => by simp [jfuel, dumpChars]
  | .bool false => by simp [jfuel, dumpChars]
  | .int n => by
      have h : 1 ≤ (intChars n).length := by
        by_cases hneg : n < 0
        · rw [intChars, if_pos hneg]; simp
        · obtain ⟨c, t, hct, _, _⟩ := natChars_head n.toNat
          rw [intChars, if_neg hneg, hct]; simp
      simpa [jfuel, dumpChars] using h
  | .str s => by simp [jfuel, dumpChars, dumpStr]
  | .arr [] => by simp [jfuel, dumpChars, dumpElems]
  | .arr (e :: es) => by
      have h := elemsFuel_le_dump e es
      have hd : dumpChars (.arr (e :: es)) = '[' :: (dumpElems (e :: es) ++ [']']) := rfl
      rw [hd]
      simp only [jfuel, List.length_cons, List.length_append]
      omega
  | .obj [] => by simp [jfuel, dumpChars, dumpFields]
  | .obj (p :: ps) => by
      have h := fieldsFuel_le_dump p ps
      have hd : dumpChars (.obj (p :: ps)) = '\x7b' :: (dumpFields (p :: ps) ++ ['\x7d']) := rfl
      rw [hd]
      simp only [jfuel, List.length_cons, List.length_append]
      omega
termination_by j => sizeOf j

theorem elemsFuel_le_dump : ∀ (e : Json) (es : List Json),
    elemsFuel (e :: es) ≤ (dumpElems (e :: es)).length + 1
  | e, [] => by
      have h := jfuel_le_dump e
      simp only [elemsFuel, dumpElems]
      omega
  | e, e' :: es => by
      have h1 := jfuel_le_dump e
      have h2 := elemsFuel_le_dump e' es
      have hd : dumpElems (e :: e' :: es) =
          dumpChars e ++ ',' :: ' ' :: dumpElems (e' :: es) := rfl
      rw [hd]
      simp only [elemsFuel, List.length_append, List.length_cons]
      omega
termination_by e es => sizeOf e + sizeOf es + 1

theorem fieldsFuel_le_dump : ∀ (p : String × Json) (ps : List (String × Json)),
    fieldsFuel (p :: ps) ≤ (dumpFields (p :: ps)).length + 1
  | (k, v), [] => by
      have h := jfuel_le_dump v
      have hd : dumpFields [(k, v)] = dumpStr k ++ ':' :: ' ' :: dumpChars v := rfl
      rw [hd]
      simp only [fieldsFuel, List.length_append, List.length_cons]
      omega
  | (k, v), p :: ps => by
      have h1 := jfuel_le_dump v
      have h2 := fieldsFuel_le_dump p ps
      have hd : dumpFields ((k, v) :: p :: ps) =
          dumpStr k ++ ':' :: ' ' :: dumpChars v ++ ',' :: ' ' :: dumpFields (p :: ps) := rfl
      rw [hd]
      simp only [fieldsFuel, List.length_append, List.length_cons]
      omega
termination_by p ps => sizeOf p + sizeOf ps

end

/-- `json.loads (json.dumps j) = j` for well-formed values: the backbone of
the parser cascade's first stage and of the round-trip claim. -/
theorem jsonLoads_dumps (j : Json) (h : jsonWF j = true) :
    jsonLoads (jsonDumps j) = some j := by
  obtain ⟨c, t, hct, hws, _, _⟩ := dumpChars_head j
  have hdata : (jsonDumps j).data = dumpChars j := rfl
  rw [jsonLoads]
  simp only [hdata]
  rw [hct, skipWsJson_cons _ hws, ← hct]
  have hfuel : jfuel j ≤ (dumpChars j).length + 1 :=
    le_trans (jfuel_le_dump j) (by omega)
  have hv := parseValue_dump j ((dumpChars j).length + 1) hfuel h [] rfl
  rw [List.append_nil] at hv
  rw [hv]
  simp [skipWsJson]

/-! ## `query_batch` structure -/

theorem reconcileChunk_length (blen : Nat) (br : List Json) :
    (reconcileChunk blen br).length = blen := by
  rw [reconcileChunk]
  split_ifs with h1 h2
  · simp only [List.length_append, List.length_replicate]
    omega
  · simp only [List.length_take]
    omega
  · omega

theorem chunkOutcome_length (oracle : Nat → List RecT → Except String String)
    (i : Nat) (batch : List RecT) :
    (chunkOutcome oracle i batch).length = batch.length := by
  rcases hx : oracle i batch with e | t
  · simp [chunkOutcome, hx]
  · simp [chunkOutcome, hx, reconcileChunk_length]

theorem chunkOutcome_nil (oracle : Nat → List RecT → Except String String) (i : Nat) :
    chunkOutcome oracle i [] = [] := by
  have h := chunkOutcome_length oracle i []
  simp only [List.length_nil] at h
  exact List.length_eq_zero.mp h

theorem queryBatchGo_length (oracle : Nat → List RecT → Except String String)
    (bsPred : Nat) : ∀ (i : Nat) (rs : List RecT),
    (queryBatchGo oracle bsPred i rs).length = rs.length
  | _, [] => by rw [queryBatchGo]; rfl
  | i, r :: rest => by
      rw [queryBatchGo]
      have ih := queryBatchGo_length oracle bsPred (i + 1) ((r :: rest).drop (bsPred + 1))
      simp only [List.length_append, chunkOutcome_length, ih, List.length_take,
        List.length_drop, List.length_cons]
      omega
termination_by i rs => rs.length
decreasing_by simp; omega

theorem queryBatchGo_drop (oracle : Nat → List RecT → Except String String)
    (bsPred : Nat) : ∀ (j i : Nat) (rs : List RecT),
    (queryBatchGo oracle bsPred i rs).drop (j * (bsPred + 1)) =
      queryBatchGo oracle bsPred (i + j) (rs.drop (j * (bsPred + 1)))
  | 0, i, rs => by simp
  | j + 1, i, rs => by
      cases rs with
      | nil => rw [queryBatchGo]; simp [queryBatchGo]
      | cons r rest =>
          rw [queryBatchGo]
          have hmul : bsPred + 1 ≤ (j + 1) * (bsPred + 1) := by
            have h1 : 1 * (bsPred + 1) ≤ (j + 1) * (bsPred + 1) :=
              Nat.mul_le_mul_right _ (by omega)
            simpa using h1
          by_cases hle : (r :: rest).length ≤ bsPred + 1
          · have hlen1 : (chunkOutcome oracle i ((r :: rest).take (bsPred + 1))).length =
                (r :: rest).length := by
              rw [chunkOutcome_length]
              simp only [List.length_take]
              omega
            have hgo : queryBatchGo oracle bsPred (i + 1) ((r :: rest).drop (bsPred + 1)) =
                [] := by
              rw [List.drop_eq_nil_of_le hle, queryBatchGo]
            rw [hgo, List.append_nil]
            have hd1 : (chunkOutcome oracle i ((r :: rest).take (bsPred + 1))).drop
                ((j + 1) * (bsPred + 1)) = [] := by
              apply List.drop_eq_nil_of_le
              rw [hlen1]
              omega
            have hd2 : (r :: rest).drop ((j + 1) * (bsPred + 1)) = [] :=
              List.drop_eq_nil_of_le (by omega)
            rw [hd1, hd2, queryBatchGo]
          · push_neg at hle
            have hlen1 : (chunkOutcome oracle i ((r :: rest).take (bsPred + 1))).length =
                bsPred + 1 := by
              rw [chunkOutcome_length]
              simp only [List.length_take]
              omega
            have hsplit : (j + 1) * (bsPred + 1) =
                (chunkOutcome oracle i ((r :: rest).take (bsPred + 1))).length +
                  j * (bsPred + 1) := by
              rw [hlen1]; ring
            rw [hsplit, List.drop_append,
              queryBatchGo_drop oracle bsPred j (i + 1) ((r :: rest).drop (bsPred + 1)),
              List.drop_drop]
            have e1 : i + 1 + j = i + (j + 1) := by omega
            have e2 : bsPred + 1 + j * (bsPred + 1) = (j + 1) * (bsPred + 1) := by ring
            rw [e1, e2, ← hsplit]

theorem query_batch_pos (oracle : Nat → List RecT → Except String String)
    (rs : List RecT) (bp : Nat) :
    query_batch true oracle rs (bp + 1) = queryBatchGo oracle bp 0 rs := by
  rw [query_batch]
  simp

theorem query_batch_take (oracle : Nat → List RecT → Except String String)
    (rs : List RecT) (bp : Nat) (j : Nat) :
    ((query_batch true oracle rs (bp + 1)).drop (j * (bp + 1))).take (bp + 1) =
      chunkResult oracle (bp + 1) rs j := by
  rw [query_batch_pos, queryBatchGo_drop oracle bp j 0 rs]
  simp only [Nat.zero_add]
  rw [chunkResult, chunkAt]
  cases hrs : rs.drop (j * (bp + 1)) with
  | nil =>
      rw [queryBatchGo]
      simp [chunkOutcome_nil]
  | cons r rest =>
      rw [queryBatchGo]
      by_cases hle : (r :: rest).length ≤ bp + 1
      · rw [List.drop_eq_nil_of_le hle, queryBatchGo, List.append_nil]
        apply List.take_of_length_le
        rw [chunkOutcome_length]
        simp only [List.length_take]
        omega
      · push_neg at hle
        have hlen1 : (chunkOutcome oracle j ((r :: rest).take (bp + 1))).length =
            bp + 1 := by
          rw [chunkOutcome_length]
          simp only [List.length_take]
          omega
        rw [List.take_left' hlen1]

theorem query_batch_getElem (oracle : Nat → List RecT → Except String String)
    (rs : List RecT) (bs : Nat) (h : 0 < bs) (i : Nat) :
    (query_batch true oracle rs bs)[i]? = (chunkResult oracle bs rs (i / bs))[i % bs]? := by
  obtain ⟨bp, rfl⟩ : ∃ bp, bs = bp + 1 := ⟨bs - 1, by omega⟩
  have hmod : i % (bp + 1) < bp + 1 := Nat.mod_lt _ (by omega)
  rw [← query_batch_take oracle rs bp (i / (bp + 1))]
  rw [List.getElem?_take]
  simp only [hmod, if_true]
  rw [List.getElem?_drop]
  have e3 : i / (bp + 1) * (bp + 1) + i % (bp + 1) = i := by
    rw [Nat.mul_comm]
    exact Nat.div_add_mod i (bp + 1)
  rw [e3]

theorem query_batch_length (oracle : Nat → List RecT → Except String String)
    (rs : List RecT) (bs : Nat) (h : 0 < bs) :
    (query_batch true oracle rs bs).length = rs.length := by
  obtain ⟨bp, rfl⟩ : ∃ bp, bs = bp + 1 := ⟨bs - 1, by omega⟩
  rw [query_batch_pos, queryBatchGo_length]

/-! ## Prompt templates -/

/-- A template mentioning a placeholder absent from the substitution set
cannot render: `str.format` raises KeyError at some hole. -/
theorem renderTemplate_error_of_miss : ∀ (t : Template) (env : List (String × String))
    (n : String), TPart.hole n ∈ t → lookupEnv env n = none →
    ∃ e, renderTemplate t env = .error e
  | [], _, _, h, _ => absurd h (by simp)
  | .lit s :: rest, env, n, h, hn => by
      have hm : TPart.hole n ∈ rest := by simpa using h
      obtain ⟨e, he⟩ := renderTemplate_error_of_miss rest env n hm hn
      exact ⟨e, by rw [renderTemplate, he]⟩
  | .hole m :: rest, env, n, h, hn => by
      rcases List.mem_cons.mp h with h1 | h1
      · injection h1 with hm
        subst hm
        exact ⟨n, by rw [renderTemplate, hn]⟩
      · cases hl : lookupEnv env m with
        | none => exact ⟨m, by rw [renderTemplate, hl]⟩
        | some v =>
            obtain ⟨e, he⟩ := renderTemplate_error_of_miss rest env n h1 hn
            exact ⟨e, by rw [renderTemplate, hl, he]⟩

theorem batchEnv_lookup_none (schema : Schema) (rs : List RecT) (n : String)
    (h1 : n ≠ "batch_data") (h2 : n ≠ "companies_list")
    (h3 : n ≠ "output_fields_description") :
    lookupEnv (batchEnv schema rs) n = none := by
  simp only [batchEnv, lookupEnv]
  rw [if_neg (fun e => h1 e.symm), if_neg (fun e => h2 e.symm),
    if_neg (fun e => h3 e.symm)]

/-! ## Prompt enhancement always appends -/

theorem mcp_enhance_keeps_prompt (c : MCPClientSt) (prompt : String) :
    ∃ t, mcp_enhance_prompt c prompt = prompt ++ t := by
  cases h1 : c.is_enabled with
  | false => exact ⟨"", by simp [mcp_enhance_prompt, h1]⟩
  | true =>
      cases h2 : (hasSub prompt "公司" || hasSub prompt "企业") with
      | false => exact ⟨"", by simp [mcp_enhance_prompt, h1, h2]⟩
      | true =>
          rcases hsc : searchCompanyName prompt.data with _ | raw
          · exact ⟨"", by simp [mcp_enhance_prompt, h1, h2, hsc]⟩
          · rcases hsw : search_web c ((pyStripChars raw).asString ++ " 公司信息 官网")
              with _ | sr
            · exact ⟨"", by simp [mcp_enhance_prompt, h1, h2, hsc, hsw]⟩
            · by_cases hemp : sr = ""
              · exact ⟨"", by simp [mcp_enhance_prompt, h1, h2, hsc, hsw, hemp]⟩
              · refine ⟨"\n\n【实时搜索结果】\n" ++ (sr.data.take 1000).asString ++
                  "\n\n请结合以上搜索结果回答。", ?_⟩
                simp [mcp_enhance_prompt, h1, h2, hsc, hsw, hemp, String.append_assoc]

theorem simple_enhance_keeps_prompt (s : SimpleMCPClientSt) (prompt : String) :
    ∃ t, simple_enhance_prompt s prompt = prompt ++ t := by
  cases h : s.enabled with
  | false => exact ⟨"", by simp [simple_enhance_prompt, h]⟩
  | true => exact ⟨simpleTipBlock, by simp [simple_enhance_prompt, h]⟩

/-! ## Multi-company parse shape -/

theorem parse_multiple_companies_shape (cs : List Char) :
    ∃ companies, parse_multiple_companies cs = .multiple companies companies.length ∧
      ∀ d ∈ companies, d.full_name ≠ "N/A" := by
  refine ⟨_, rfl, ?_⟩
  intro d hd
  simp only [List.mem_filterMap] at hd
  obtain ⟨sec, _, hsec⟩ := hd
  by_cases hws : pyStripChars sec = []
  · rw [if_pos hws] at hsec
    cases hsec
  · rw [if_neg hws] at hsec
    by_cases hna : (parse_company_section sec).full_name ≠ "N/A"
    · rw [if_pos hna] at hsec
      injection hsec with h
      rw [← h]
      exact hna
    · rw [if_neg hna] at hsec
      cases hsec

/-! # Claim theorems -/

/-- C1: `query_batch` returns one element per input record: the result has
the input's length; element `i` is entry `i % batch_size` of the block chunk
`i / batch_size` contributed, so positions follow the input order; a chunk
whose call succeeds contributes its parsed list reconciled to the chunk
length, a short parse being padded with `无返回结果` sentinels and a long one
truncated. -/
theorem c1_query_batch_cardinality_order
    (oracle : Nat → List RecT → Except String String)
    (rs : List RecT) (bs : Nat) (h : 0 < bs) :
    (query_batch true oracle rs bs).length = rs.length ∧
    (∀ i, i < rs.length →
      (query_batch true oracle rs bs)[i]? =
        (chunkResult oracle bs rs (i / bs))[i % bs]?) ∧
    (∀ j text, oracle j (chunkAt rs bs j) = .ok text →
      chunkResult oracle bs rs j =
        reconcileChunk (chunkAt rs bs j).length (parse_json_array_response text)) ∧
    (∀ blen br, br.length < blen →
      reconcileChunk blen br =
        br ++ List.replicate (blen - br.length) (errDict "无返回结果")) ∧
    (∀ blen br, blen < br.length → reconcileChunk blen br = br.take blen) := by
  refine ⟨query_batch_length oracle rs bs h, ?_, ?_, ?_, ?_⟩
  · intro i _
    exact query_batch_getElem oracle rs bs h i
  · intro j text hok
    simp only [chunkResult, chunkOutcome, hok]
  · intro blen br hlt
    rw [reconcileChunk, if_pos (by omega : br.length ≠ blen), if_pos hlt]
  · intro blen br hlt
    rw [reconcileChunk, if_pos (by omega : br.length ≠ blen),
      if_neg (by omega : ¬br.length < blen)]

theorem c1_witness :
    0 < 2 ∧
    ((query_batch true (fun _ _ => Except.ok "x")
        [[("a", "1")], [("b", "2")], [("c", "3")]] 2).length =
      ([[("a", "1")], [("b", "2")], [("c", "3")]] : List RecT).length ∧
    (∀ i, i < ([[("a", "1")], [("b", "2")], [("c", "3")]] : List RecT).length →
      (query_batch true (fun _ _ => Except.ok "x")
          [[("a", "1")], [("b", "2")], [("c", "3")]] 2)[i]? =
        (chunkResult (fun _ _ => Except.ok "x") 2
          [[("a", "1")], [("b", "2")], [("c", "3")]] (i / 2))[i % 2]?) ∧
    (∀ j text, (Except.ok "x" : Except String String) = .ok text →
      chunkResult (fun _ _ => Except.ok "x") 2
          [[("a", "1")], [("b", "2")], [("c", "3")]] j =
        reconcileChunk (chunkAt [[("a", "1")], [("b", "2")], [("c", "3")]] 2 j).length
          (parse_json_array_response text)) ∧
    (∀ blen br, br.length < blen →
      reconcileChunk blen br =
        br ++ List.replicate (blen - br.length) (errDict "无返回结果")) ∧
    (∀ blen br, blen < br.length → reconcileChunk blen br = br.take blen)) :=
  ⟨by decide, c1_query_batch_cardinality_order (fun _ _ => Except.ok "x")
    [[("a", "1")], [("b", "2")], [("c", "3")]] 2 (by decide)⟩

/-- C2 counterexample: single-record mode has no fallback — a template with
an unresolvable placeholder makes `generate_prompt` raise KeyError (modelled
as `.error`), while batch mode with the same placeholder does fall back. -/
theorem c2_counterexample :
    generate_prompt_single ⟨[], [TPart.hole "missing"], []⟩ [] = .error "missing" ∧
    generate_prompt_batch ⟨[], [], [TPart.hole "missing"]⟩ [] =
      fallbackPrompt (batchDataStr [])
        (outputFieldsDescription ⟨[], [], [TPart.hole "missing"]⟩) := by
  exact ⟨rfl, rfl⟩

/-- C2 amended: in batch mode a placeholder outside the fixed substitution
set (`batch_data`, `companies_list`, `output_fields_description`) always
degrades to the engine-default prompt; in single-record mode there is no
fallback, and an unresolvable placeholder escapes as the KeyError. -/
theorem c2_template_fallback_amended (schema : Schema) (rs : List RecT) (r : RecT) :
    (∀ e, renderTemplate schema.batch_prompt_template (batchEnv schema rs) = .error e →
      generate_prompt_batch schema rs =
        fallbackPrompt (batchDataStr rs) (outputFieldsDescription schema)) ∧
    (∀ n, TPart.hole n ∈ schema.batch_prompt_template →
      n ≠ "batch_data" → n ≠ "companies_list" → n ≠ "output_fields_description" →
      generate_prompt_batch schema rs =
        fallbackPrompt (batchDataStr rs) (outputFieldsDescription schema)) ∧
    (∀ n, TPart.hole n ∈ schema.prompt_template →
      lookupEnv (singleEnv schema r) n = none →
      ∃ e, generate_prompt_single schema r = .error e) := by
  refine ⟨?_, ?_, ?_⟩
  · intro e he
    rw [generate_prompt_batch, he]
  · intro n hn h1 h2 h3
    obtain ⟨e, he⟩ := renderTemplate_error_of_miss schema.batch_prompt_template
      (batchEnv schema rs) n hn (batchEnv_lookup_none schema rs n h1 h2 h3)
    rw [generate_prompt_batch, he]
  · intro n hn hl
    obtain ⟨e, he⟩ := renderTemplate_error_of_miss schema.prompt_template
      (singleEnv schema r) n hn hl
    exact ⟨e, by rw [generate_prompt_single]; exact he⟩

/-- C3: the `parse_json_response` cascade, first success winning: direct
decode, then the brace-regex extraction, then the fenced block, and on total
failure the error sentinel whose `raw_response` is the input verbatim; the
function is total, so no input raises. -/
theorem c3_parse_cascade (s : String) :
    (∀ v, jsonLoads s = some v → parse_json_response s = v) ∧
    (∀ m v, jsonLoads s = none → searchBraceObj s.data = some m →
      jsonLoads m.asString = some v → parse_json_response s = v) ∧
    (∀ m v, jsonLoads s = none →
      (searchBraceObj s.data = none ∨
        ∃ m', searchBraceObj s.data = some m' ∧ jsonLoads m'.asString = none) →
      searchFence '\x7b' '\x7d' s.data = some m → jsonLoads m.asString = some v →
      parse_json_response s = v) ∧
    (jsonLoads s = none →
      (searchBraceObj s.data = none ∨
        ∃ m', searchBraceObj s.data = some m' ∧ jsonLoads m'.asString = none) →
      (searchFence '\x7b' '\x7d' s.data = none ∨
        ∃ m', searchFence '\x7b' '\x7d' s.data = some m' ∧
          jsonLoads m'.asString = none) →
      parse_json_response s =
        .obj [("error", .str "无法解析AI返回内容"), ("raw_response", .str s)]) := by
  refine ⟨?_, ?_, ?_, ?_⟩
  · intro v h
    simp only [parse_json_response, h]
  · intro m v h0 h1 h2
    simp only [parse_json_response, h0, h1, h2]
  · intro m v h0 h1 h2 h3
    rcases h1 with h1 | ⟨m', hm', hl'⟩
    · simp only [parse_json_response, fenceStage, h0, h1, h2, h3]
    · simp only [parse_json_response, fenceStage, h0, hm', hl', h2, h3]
  · intro h0 h1 h2
    have hf : fenceStage s = parseErrSentinel s := by
      rcases h2 with h2 | ⟨m', hm', hl'⟩
      · rw [fenceStage, h2]
      · simp only [fenceStage, hm', hl']
    rcases h1 with h1 | ⟨m', hm', hl'⟩
    · simp only [parse_json_response, h0, h1, hf, parseErrSentinel]
    · simp only [parse_json_response, h0, hm', hl', hf, parseErrSentinel]

/-- C4: failure isolation in `query_batch`: against an oracle that fails on
chunk `t` and agrees with `oracle` elsewhere, every position of chunk `t` is
the error sentinel for the raised message, and every position outside chunk
`t` is exactly what `oracle` alone would have produced. -/
theorem c4_failure_isolation (oracle oracle' : Nat → List RecT → Except String String)
    (rs : List RecT) (bs t : Nat) (e : String) (h : 0 < bs)
    (hfail : ∀ batch, oracle' t batch = .error e)
    (hagree : ∀ j, j ≠ t → oracle' j = oracle j) :
    (∀ i, i < rs.length → i / bs = t →
      (query_batch true oracle' rs bs)[i]? = some (errDict e)) ∧
    (∀ i, i / bs ≠ t →
      (query_batch true oracle' rs bs)[i]? = (query_batch true oracle rs bs)[i]?) := by
  constructor
  · intro i hi ht
    rw [query_batch_getElem oracle' rs bs h i, ht]
    simp only [chunkResult, chunkOutcome, hfail]
    have hlt : i % bs < (chunkAt rs bs t).length := by
      have hlen : (chunkAt rs bs t).length = min bs (rs.length - t * bs) := by
        simp [chunkAt]
      have hdm := Nat.div_add_mod i bs
      rw [ht] at hdm
      have hmod : i % bs < bs := Nat.mod_lt _ h
      have hc : bs * t = t * bs := Nat.mul_comm _ _
      rw [hlen]
      omega
    rw [List.getElem?_replicate, if_pos hlt]
  · intro i ht
    rw [query_batch_getElem oracle' rs bs h i, query_batch_getElem oracle rs bs h i]
    simp only [chunkResult, chunkOutcome, hagree (i / bs) ht]

theorem c4_witness :
    (∀ i, i < ([[("a", "1")], [("b", "2")]] : List RecT).length → i / 1 = 0 →
      (query_batch true (fun j _ => if j = 0 then Except.error "boom" else Except.ok "x")
        [[("a", "1")], [("b", "2")]] 1)[i]? = some (errDict "boom")) ∧
    (∀ i, i / 1 ≠ 0 →
      (query_batch true (fun j _ => if j = 0 then Except.error "boom" else Except.ok "x")
        [[("a", "1")], [("b", "2")]] 1)[i]? =
      (query_batch true (fun _ _ => Except.ok "x") [[("a", "1")], [("b", "2")]] 1)[i]?) :=
  c4_failure_isolation (fun _ _ => Except.ok "x")
    (fun j _ => if j = 0 then Except.error "boom" else Except.ok "x")
    [[("a", "1")], [("b", "2")]] 1 0 "boom" (by decide)
    (fun _ => rfl) (fun j hj => funext fun _ => by simp [hj])

/-- C5 counterexample: with the feature flag set and zero live servers, the
full client reports disabled, `create_mcp_client` therefore degrades to the
simplified fallback, and the client the engine receives reports enabled —
against the spec's "flag AND at least one live server". -/
theorem c5_counterexample :
    liveServers (fun _ => none) (MCPConfig.mk true []) = [] ∧
    (mkMCPClient (fun _ => none) (MCPConfig.mk true [])).is_enabled = false ∧
    (create_mcp_client (fun _ => none) (MCPConfig.mk true [])).is_enabled = true :=
  ⟨rfl, rfl, rfl⟩

/-- C5 amended: `MCPClient.is_enabled` itself is the flag AND a live server,
but when that is false `create_mcp_client` hands the engine the simplified
fallback, whose `is_enabled` is the flag alone — so the engine's client
reports enabled exactly when the flag is set, even with zero live servers. -/
theorem c5_is_enabled_amended (spawn : String → Option ServerSt) (cfg : MCPConfig) :
    (create_mcp_client spawn cfg).is_enabled = cfg.enable_mcp ∧
    ((mkMCPClient spawn cfg).is_enabled = true ↔
      cfg.enable_mcp = true ∧ 0 < (liveServers spawn cfg).length) ∧
    (∀ c, create_mcp_client spawn cfg = .full c → c.is_enabled = true) := by
  have hmk : (mkMCPClient spawn cfg).is_enabled =
      (cfg.enable_mcp && decide (0 < (if cfg.enable_mcp then liveServers spawn cfg
        else []).length)) := rfl
  refine ⟨?_, ?_, ?_⟩
  · cases hc : (mkMCPClient spawn cfg).is_enabled with
    | true =>
        have hflag : cfg.enable_mcp = true := by
          rw [hmk, Bool.and_eq_true] at hc
          exact hc.1
        have hcreate : create_mcp_client spawn cfg = .full (mkMCPClient spawn cfg) := by
          simp only [create_mcp_client]
          rw [if_pos hc]
        rw [hcreate]
        show (mkMCPClient spawn cfg).is_enabled = cfg.enable_mcp
        rw [hc, hflag]
    | false =>
        have hcreate : create_mcp_client spawn cfg = .simple ⟨cfg.enable_mcp⟩ := by
          simp only [create_mcp_client]
          rw [if_neg (by simp [hc])]
        rw [hcreate]
        rfl
  · rw [hmk]
    cases hflag : cfg.enable_mcp with
    | false => simp
    | true => simp
  · intro c hc
    cases he : (mkMCPClient spawn cfg).is_enabled with
    | true =>
        have hcreate : create_mcp_client spawn cfg = .full (mkMCPClient spawn cfg) := by
          simp only [create_mcp_client]
          rw [if_pos he]
        rw [hcreate] at hc
        injection hc with h
        rw [← h]
        exact he
    | false =>
        have hcreate : create_mcp_client spawn cfg = .simple ⟨cfg.enable_mcp⟩ := by
          simp only [create_mcp_client]
          rw [if_neg (by simp [he])]
        rw [hcreate] at hc
        cases hc

/-- C6 counterexample: with the flag set and no live server,
`create_mcp_client` hands the engine the simplified client, whose
`enhance_prompt` appends the fixed advice block — the prompt is not returned
unchanged although no server is running. -/
theorem c6_counterexample :
    (create_mcp_client (fun _ => none) (MCPConfig.mk true [])).enhance_prompt "hello" =
      "hello" ++ simpleTipBlock ∧
    "hello" ++ simpleTipBlock ≠ "hello" := by
  refine ⟨rfl, by decide⟩

/-- C6 amended: the full client's `enhance_prompt` returns the prompt
unchanged when the client is disabled, when the prompt has no entity
keyword, when no entity-name label matches, when the web search fails, or
when the search succeeds with an empty string (falsy under the
`if search_result:` guard), and on a non-empty result appends its first
at-most-1000 characters as the context block; the simplified fallback
client instead appends its fixed advice block whenever the flag is set,
without any server or failure check. -/
theorem c6_enhance_prompt_amended (c : MCPClientSt) (s : SimpleMCPClientSt)
    (prompt : String) :
    (c.is_enabled = false → mcp_enhance_prompt c prompt = prompt) ∧
    ((hasSub prompt "公司" || hasSub prompt "企业") = false →
      mcp_enhance_prompt c prompt = prompt) ∧
    (searchCompanyName prompt.data = none → mcp_enhance_prompt c prompt = prompt) ∧
    (∀ raw, searchCompanyName prompt.data = some raw →
      search_web c ((pyStripChars raw).asString ++ " 公司信息 官网") = none →
      mcp_enhance_prompt c prompt = prompt) ∧
    (∀ raw, searchCompanyName prompt.data = some raw →
      search_web c ((pyStripChars raw).asString ++ " 公司信息 官网") = some "" →
      mcp_enhance_prompt c prompt = prompt) ∧
    (∀ raw sr, c.is_enabled = true →
      (hasSub prompt "公司" || hasSub prompt "企业") = true →
      searchCompanyName prompt.data = some raw →
      search_web c ((pyStripChars raw).asString ++ " 公司信息 官网") = some sr →
      sr ≠ "" →
      mcp_enhance_prompt c prompt =
        prompt ++ "\n\n【实时搜索结果】\n" ++ (sr.data.take 1000).asString ++
          "\n\n请结合以上搜索结果回答。" ∧ (sr.data.take 1000).length ≤ 1000) ∧
    (s.enabled = true → simple_enhance_prompt s prompt = prompt ++ simpleTipBlock) := by
  refine ⟨?_, ?_, ?_, ?_, ?_, ?_, ?_⟩
  · intro h
    simp [mcp_enhance_prompt, h]
  · intro h
    cases h1 : c.is_enabled with
    | false => simp [mcp_enhance_prompt, h1]
    | true => simp [mcp_enhance_prompt, h1, h]
  · intro h
    cases h1 : c.is_enabled with
    | false => simp [mcp_enhance_prompt, h1]
    | true =>
        cases h2 : (hasSub prompt "公司" || hasSub prompt "企业") with
        | false => simp [mcp_enhance_prompt, h1, h2]
        | true => simp [mcp_enhance_prompt, h1, h2, h]
  · intro raw hraw hsw
    cases h1 : c.is_enabled with
    | false => simp [mcp_enhance_prompt, h1]
    | true =>
        cases h2 : (hasSub prompt "公司" || hasSub prompt "企业") with
        | false => simp [mcp_enhance_prompt, h1, h2]
        | true => simp [mcp_enhance_prompt, h1, h2, hraw, hsw]
  · intro raw hraw hsw
    cases h1 : c.is_enabled with
    | false => simp [mcp_enhance_prompt, h1]
    | true =>
        cases h2 : (hasSub prompt "公司" || hasSub prompt "企业") with
        | false => simp [mcp_enhance_prompt, h1, h2]
        | true => simp [mcp_enhance_prompt, h1, h2, hraw, hsw]
  · intro raw sr h1 h2 hraw hsw hemp
    constructor
    · simp [mcp_enhance_prompt, h1, h2, hraw, hsw, hemp]
    · rw [List.length_take]
      exact Nat.min_le_left _ _
  · intro h
    simp [simple_enhance_prompt, h]

/-- C7 counterexample: `公司2：长江公司\n公司3：黄河公司` has two `公司k：`
section headers, so the spec's "at least two Entity k: headers" trigger
fires, but the source tests for the `公司1` and `公司2` headers specifically:
the code's trigger stays off and the text is parsed as a single company. -/
theorem c7_counterexample :
    specMultiTrigger ("公司2：长江公司\n公司3：黄河公司").data = true ∧
    multiTrigger ("公司2：长江公司\n公司3：黄河公司").data = false ∧
    parse_ai_response "公司2：长江公司\n公司3：黄河公司" "查询" =
      .single (parse_single_response ("公司2：长江公司\n公司3：黄河公司").data
        ("查询" : String).data) := by
  refine ⟨by decide, by decide, rfl⟩

/-- C7 amended: multi-company parsing is triggered exactly by the explicit
marker or by the presence of both a `公司1` and a `公司2` header (not any two
headers); when triggered, the split sections yielding no usable name are
dropped and the result is the multiple-companies value whose count is the
number of retained companies; otherwise the single-company path runs. -/
theorem c7_multi_trigger_amended (text query : String) :
    (multiTrigger text.data = true ↔
      hasMarker text.data = true ∨
        (hasCoHdr '1' text.data = true ∧ hasCoHdr '2' text.data = true)) ∧
    (multiTrigger text.data = true →
      ∃ companies, parse_ai_response text query = .multiple companies companies.length ∧
        ∀ d ∈ companies, d.full_name ≠ "N/A") ∧
    (multiTrigger text.data = false →
      parse_ai_response text query =
        .single (parse_single_response text.data query.data)) := by
  refine ⟨?_, ?_, ?_⟩
  · simp [multiTrigger, Bool.or_eq_true, Bool.and_eq_true]
  · intro h
    have hs := parse_multiple_companies_shape text.data
    simpa [parse_ai_response, h] using hs
  · intro h
    simp [parse_ai_response, h]

/-- C8: `call_tool` returns the `result` field of the decoded response on
success and `none` on every failure — server not running, timeout with no
output line (the send primitive returning `none`, not raising), decode
failure, or a response without a usable `result` — never an exception. -/
theorem c8_call_tool_no_raise (srv : ServerSt) (tool : String) (args : Json) :
    (srv.running = false → call_tool srv tool args = none) ∧
    (srv.responseLine = none → sendRequest srv = none ∧ call_tool srv tool args = none) ∧
    (∀ l, srv.responseLine = some l → jsonLoads (pyStrip l) = none →
      call_tool srv tool args = none) ∧
    (∀ l fs, srv.running = true → srv.responseLine = some l →
      jsonLoads (pyStrip l) = some (.obj fs) →
      call_tool srv tool args = lookupJ fs "result") ∧
    (∀ l v, srv.running = true → srv.responseLine = some l →
      jsonLoads (pyStrip l) = some v → getResultField v = none →
      call_tool srv tool args = none) := by
  refine ⟨?_, ?_, ?_, ?_, ?_⟩
  · intro h
    simp [call_tool, h]
  · intro h
    have hs : sendRequest srv = none := by
      cases hr : srv.running with
      | false => simp [sendRequest, hr]
      | true => simp [sendRequest, hr, h]
    refine ⟨hs, ?_⟩
    cases hr : srv.running with
    | false => simp [call_tool, hr]
    | true => simp [call_tool, hr, hs]
  · intro l hl hj
    cases hr : srv.running with
    | false => simp [call_tool, hr]
    | true =>
        have hs : sendRequest srv = none := by simp [sendRequest, hr, hl, hj]
        simp [call_tool, hr, hs]
  · intro l fs hr hl hj
    have hs : sendRequest srv = some (.obj fs) := by simp [sendRequest, hr, hl, hj]
    simp [call_tool, hr, hs, getResultField]
  · intro l v hr hl hj hres
    have hs : sendRequest srv = some v := by simp [sendRequest, hr, hl, hj]
    simp [call_tool, hr, hs, hres]

/-- C9: parser idempotence on serialized records:
`parse_json_response (json.dumps x) = x` for every well-formed value (every
object in `x` carrying pairwise distinct keys). -/
theorem c9_parse_dumps_roundtrip (x : Json) (h : jsonWF x = true) :
    parse_json_response (jsonDumps x) = x := by
  rw [parse_json_response, jsonLoads_dumps x h]

theorem c9_witness :
    jsonWF (Json.obj [("错误", Json.str "a\"b\n"), ("值", Json.int (-42)),
      ("列表", Json.arr [Json.null, Json.bool true, Json.obj [("k", Json.int 7)]])]) =
      true ∧
    parse_json_response (jsonDumps (Json.obj [("错误", Json.str "a\"b\n"),
      ("值", Json.int (-42)),
      ("列表", Json.arr [Json.null, Json.bool true, Json.obj [("k", Json.int 7)]])])) =
      Json.obj [("错误", Json.str "a\"b\n"), ("值", Json.int (-42)),
        ("列表", Json.arr [Json.null, Json.bool true, Json.obj [("k", Json.int 7)]])] :=
  ⟨by decide, c9_parse_dumps_roundtrip _ (by decide)⟩

/-- C10: `enhance_prompt` only ever appends: the returned string always has
the original prompt as a prefix — for the full client, the simplified
client, and whichever of the two the engine was handed. -/
theorem c10_enhance_appends (c : MCPClientSt) (s : SimpleMCPClientSt)
    (ec : EngineClient) (prompt : String) :
    (∃ t, mcp_enhance_prompt c prompt = prompt ++ t) ∧
    (∃ t, simple_enhance_prompt s prompt = prompt ++ t) ∧
    (∃ t, ec.enhance_prompt prompt = prompt ++ t) := by
  refine ⟨mcp_enhance_keeps_prompt c prompt, simple_enhance_keeps_prompt s prompt, ?_⟩
  cases ec with
  | full c' => exact mcp_enhance_keeps_prompt c' prompt
  | simple s' => exact simple_enhance_keeps_prompt s' prompt

end UAI
